import Mathlib

/-!
Verification of the batch job dispatch and completion-tracking scripts
(`scripts/run_wan_i2v_batch.py`, `scripts/run_uprez_batch.py`).

The Python code is shallowly embedded: pure helpers become Lean functions on
`String` / `List Char` / `List (String × Json)`; interactions with external
systems (the Redis result store, the Node submission subprocess, the remote
collection service, `json.loads`) are modelled as explicit parameters or small
reply types, with a raised exception represented by an error constructor.
All definitions are computable so they can be evaluated on concrete inputs.
-/

/-! ## Python string primitives

Python `str` operations used by the scripts, modelled on `List Char`
(`String` in Lean is a wrapper around `List Char`).  Python's whitespace set
for `str.strip()` / `str.split()` is modelled by its ASCII part, which covers
every string the scripts manipulate. -/

/-- The ASCII whitespace characters recognised by Python's `str.strip()` and
`str.split()`. -/
def pyIsSpace (c : Char) : Bool :=
  c = ' ' || c = '\t' || c = '\n' || c = '\r' || c = '\x0b' || c = '\x0c'

/-- Python `str.lstrip()` on a character list. -/
def lstripL (s : List Char) : List Char := s.dropWhile pyIsSpace

/-- Python `str.rstrip()` on a character list. -/
def rstripL (s : List Char) : List Char := (s.reverse.dropWhile pyIsSpace).reverse

/-- Python `str.strip()` on a character list. -/
def pyStripL (s : List Char) : List Char := rstripL (lstripL s)

/-- Python `str.strip()` on a `String`. -/
def pyStripS (s : String) : String := String.mk (pyStripL s.data)

/-- Python's substring test `sub in s`. -/
def containsL (sub : List Char) : List Char → Bool
  | [] => sub.isEmpty
  | c :: rest => sub.isPrefixOf (c :: rest) || containsL sub rest

/-- Worker for Python `str.split(sep)` with a non-empty separator: scan left to
right, cutting at each leftmost occurrence of `sep`.  The fuel argument (an
upper bound on the number of characters still to scan) makes the recursion
structural so that the kernel can evaluate it. -/
def splitOnAux (sep : List Char) : Nat → List Char → List Char → List (List Char)
  | _, [], acc => [acc.reverse]
  | 0, text, acc => [acc.reverse ++ text]
  | fuel + 1, c :: rest, acc =>
    if sep.isPrefixOf (c :: rest) then
      acc.reverse :: splitOnAux sep fuel (List.drop (sep.length - 1) rest) []
    else
      splitOnAux sep fuel rest (c :: acc)

/-- Python `text.split(sep)` for a non-empty separator `sep`. -/
def splitOnL (sep text : List Char) : List (List Char) :=
  splitOnAux sep text.length text []

/-- Worker for Python `str.split()` (split on whitespace runs, dropping empty
pieces). -/
def pySplitAux : List Char → List Char → List (List Char)
  | [], acc => if acc.isEmpty then [] else [acc.reverse]
  | c :: rest, acc =>
    if pyIsSpace c then
      if acc.isEmpty then pySplitAux rest [] else acc.reverse :: pySplitAux rest []
    else
      pySplitAux rest (c :: acc)

/-- Python `text.split()` with no separator: splits on whitespace runs and
never returns empty pieces. -/
def pySplitWs (text : List Char) : List (List Char) := pySplitAux text []

/-- Python `str.lower()` (ASCII case folding, which covers the markers the
scripts compare). -/
def toLowerL (s : List Char) : List Char := s.map Char.toLower

/-- Python `marker.lower() in s.lower()`. -/
def containsLower (marker s : String) : Bool :=
  containsL (toLowerL marker.data) (toLowerL s.data)

/-! ## MD5 (`hashlib.md5`)

`create_job_identifier` fingerprints the combo prompt with
`hashlib.md5(combo_prompt.encode()).hexdigest()[:8]`.  The MD5 algorithm
(RFC 1321) is embedded below over `Nat` with explicit reduction mod `2^32`. -/

/-- The 64 MD5 sine-derived round constants. -/
def md5K : List Nat :=
  [3614090360, 3905402710, 606105819, 3250441966, 4118548399, 1200080426,
   2821735955, 4249261313, 1770035416, 2336552879, 4294925233, 2304563134,
   1804603682, 4254626195, 2792965006, 1236535329, 4129170786, 3225465664,
   643717713, 3921069994, 3593408605, 38016083, 3634488961, 3889429448,
   568446438, 3275163606, 4107603335, 1163531501, 2850285829, 4243563512,
   1735328473, 2368359562, 4294588738, 2272392833, 1839030562, 4259657740,
   2763975236, 1272893353, 4139469664, 3200236656, 681279174, 3936430074,
   3572445317, 76029189, 3654602809, 3873151461, 530742520, 3299628645,
   4096336452, 1126891415, 2878612391, 4237533241, 1700485571, 2399980690,
   4293915773, 2240044497, 1873313359, 4264355552, 2734768916, 1309151649,
   4149444226, 3174756917, 718787259, 3951481745]

/-- The 64 MD5 per-round left-rotation amounts. -/
def md5S : List Nat :=
  [7, 12, 17, 22, 7, 12, 17, 22, 7, 12, 17, 22, 7, 12, 17, 22,
   5, 9, 14, 20, 5, 9, 14, 20, 5, 9, 14, 20, 5, 9, 14, 20,
   4, 11, 16, 23, 4, 11, 16, 23, 4, 11, 16, 23, 4, 11, 16, 23,
   6, 10, 15, 21, 6, 10, 15, 21, 6, 10, 15, 21, 6, 10, 15, 21]

/-- 32-bit left rotation over `Nat` (inputs below `2^32`). -/
def rotl32 (x n : Nat) : Nat :=
  (x * 2 ^ n + x / 2 ^ (32 - n)) % 4294967296

/-- Bitwise complement of a 32-bit value represented as a `Nat`. -/
def mnot32 (x : Nat) : Nat := 4294967295 - x

/-- The MD5 round mixing function for step `i`. -/
def md5F (i b c d : Nat) : Nat :=
  if i < 16 then (b &&& c) ||| (mnot32 b &&& d)
  else if i < 32 then (d &&& b) ||| (mnot32 d &&& c)
  else if i < 48 then b ^^^ c ^^^ d
  else c ^^^ (b ||| mnot32 d)

/-- The MD5 message-word index for step `i`. -/
def md5G (i : Nat) : Nat :=
  if i < 16 then i
  else if i < 32 then (5 * i + 1) % 16
  else if i < 48 then (3 * i + 5) % 16
  else (7 * i) % 16

/-- One MD5 step: updates the `(a, b, c, d)` state using message words `m`. -/
def md5Step (m : List Nat) (st : Nat × Nat × Nat × Nat) (i : Nat) :
    Nat × Nat × Nat × Nat :=
  let a := st.1
  let b := st.2.1
  let c := st.2.2.1
  let d := st.2.2.2
  let f := md5F i b c d
  let rot := rotl32 ((a + f + md5K.getD i 0 + m.getD (md5G i) 0) % 4294967296)
      (md5S.getD i 0)
  (d, (b + rot) % 4294967296, b, c)

/-- Decode a 64-byte chunk into 16 little-endian 32-bit words. -/
def bytesToWordsLE (chunk : List Nat) : List Nat :=
  (List.range 16).map (fun j =>
    chunk.getD (4 * j) 0 + 256 * chunk.getD (4 * j + 1) 0 +
    65536 * chunk.getD (4 * j + 2) 0 + 16777216 * chunk.getD (4 * j + 3) 0)

/-- Process one 64-byte chunk, updating the four MD5 registers. -/
def md5Chunk (st : Nat × Nat × Nat × Nat) (chunk : List Nat) :
    Nat × Nat × Nat × Nat :=
  let m := bytesToWordsLE chunk
  let r := (List.range 64).foldl (md5Step m) st
  ((st.1 + r.1) % 4294967296, (st.2.1 + r.2.1) % 4294967296,
   (st.2.2.1 + r.2.2.1) % 4294967296, (st.2.2.2 + r.2.2.2) % 4294967296)

/-- Worker for the 64-byte chunking; the fuel (an upper bound on the number
of chunks still to cut) makes the recursion structural so that the kernel can
evaluate it. -/
def chunks64Aux : Nat → List Nat → List (List Nat)
  | _, [] => []
  | 0, bytes => [bytes]
  | fuel + 1, b :: rest => (b :: rest).take 64 :: chunks64Aux fuel ((b :: rest).drop 64)

/-- Split a byte list into consecutive 64-byte chunks. -/
def chunks64 (bytes : List Nat) : List (List Nat) := chunks64Aux bytes.length bytes

/-- MD5 padding: append `0x80`, zero bytes up to 56 mod 64, then the bit length
as 8 little-endian bytes. -/
def md5Pad (bytes : List Nat) : List Nat :=
  let len := bytes.length
  let padZeros := (56 + 64 - (len + 1) % 64) % 64
  bytes ++ [128] ++ List.replicate padZeros 0 ++
    (List.range 8).map (fun i => 8 * len / 256 ^ i % 256)

/-- Serialize a 32-bit register as 4 little-endian bytes. -/
def wordToBytesLE (w : Nat) : List Nat :=
  [w % 256, w / 256 % 256, w / 65536 % 256, w / 16777216 % 256]

/-- The 16 MD5 digest bytes of a byte string. -/
def md5Digest (bytes : List Nat) : List Nat :=
  let st := (chunks64 (md5Pad bytes)).foldl md5Chunk
    (1732584193, 4023233417, 2562383102, 271733878)
  wordToBytesLE st.1 ++ wordToBytesLE st.2.1 ++ wordToBytesLE st.2.2.1 ++
    wordToBytesLE st.2.2.2

/-- The sixteen lowercase hexadecimal digit characters. -/
def hexChars : List Char := "0123456789abcdef".data

/-- One hexadecimal digit character. -/
def hexDigit (n : Nat) : Char := hexChars.getD n '0'

/-- Two hex characters for one byte. -/
def byteToHex (b : Nat) : List Char := [hexDigit (b / 16), hexDigit (b % 16)]

/-- Python `bytes.decode`-free model of `str.encode()`: UTF-8 encode a string
to a byte list. -/
def pyEncode (s : String) : List Nat :=
  s.data.flatMap (fun c =>
    let n := c.toNat
    if n < 128 then [n]
    else if n < 2048 then [192 + n / 64, 128 + n % 64]
    else if n < 65536 then [224 + n / 4096, 128 + n / 64 % 64, 128 + n % 64]
    else [240 + n / 262144, 128 + n / 4096 % 64, 128 + n / 64 % 64, 128 + n % 64])

/-- `hashlib.md5(s.encode()).hexdigest()`: the 32-character lowercase hex
digest of a string. -/
def md5HexStr (s : String) : List Char :=
  (md5Digest (pyEncode s)).flatMap byteToHex

/-! ## JSON values and Python dictionaries

Configuration files, job descriptors and queue payloads are Python dicts /
JSON values.  They are modelled by `Json`; a dict is an association list
(the scripts never create duplicate keys). -/

/-- A JSON value / Python object as the scripts see them.  Python `None` is
`Json.null`. -/
inductive Json where
  | null : Json
  | bool (b : Bool) : Json
  | num (n : Int) : Json
  | str (s : String) : Json
  | arr (elems : List Json) : Json
  | obj (fields : List (String × Json)) : Json

/-- Python truthiness of a value (`if x:`). -/
def pyTruthy : Json → Bool
  | .null => false
  | .bool b => b
  | .num n => n != 0
  | .str s => !s.isEmpty
  | .arr elems => !elems.isEmpty
  | .obj fields => !fields.isEmpty

/-- Python `d.get(k)` on a dict: the stored value, or `None` when the key is
absent. -/
def pyDictGet (d : List (String × Json)) (k : String) : Json :=
  match d.find? (fun kv => kv.1 == k) with
  | some kv => kv.2
  | none => .null

/-- Python `k in d` / `d.get(k)` distinguishing absence from a stored value. -/
def pyDictGet? (d : List (String × Json)) (k : String) : Option Json :=
  (d.find? (fun kv => kv.1 == k)).map (fun kv => kv.2)

/-- Python `str()` of a scalar value, as used inside f-strings.  (The scripts
only ever format strings this way; compound values keep a placeholder
rendering.) -/
def pyStr : Json → String
  | .null => "None"
  | .bool true => "True"
  | .bool false => "False"
  | .num n => toString n
  | .str s => s
  | .arr _ => "[...]"
  | .obj _ => "dict"

/-! ## Paths

`pathlib.Path` values, with just the structure the scripts use: a chain of
components plus an absolute flag.  `Path.name` is the final component. -/

/-- A `pathlib.Path`: `absolute` tells whether it starts at the root, and
`components` are its parts. -/
structure PyPath where
  absolute : Bool
  components : List String
deriving DecidableEq

/-- Python `Path.name`: the final path component (empty for a bare root). -/
def PyPath.name (p : PyPath) : String := p.components.getLastD ""

/-- Python `Path.relative_to(base)`: strips `base`'s components when they are
a prefix, otherwise fails (`ValueError`, modelled as `none`). -/
def PyPath.relativeTo (p base : PyPath) : Option PyPath :=
  if base.absolute = p.absolute ∧ base.components.isPrefixOf p.components then
    some ⟨false, p.components.drop base.components.length⟩
  else none

/-- Python `str(path)` (POSIX rendering). -/
def PyPath.render (p : PyPath) : String :=
  (if p.absolute then "/" else "") ++ String.intercalate "/" p.components

/-! ## `create_job_identifier` (run_wan_i2v_batch.py, lines 51-55)

```python
def create_job_identifier(image_path: Path, combo_prompt: str) -> str:
    image_name = image_path.name
    combo_hash = hashlib.md5(combo_prompt.encode()).hexdigest()[:8]
    return f"{image_name}:{combo_hash}"
```
-/

/-- The dedup fingerprint of one image + combo combination. -/
def create_job_identifier (image_path : PyPath) (combo_prompt : String) : String :=
  let image_name := image_path.name
  let combo_hash := String.mk ((md5HexStr combo_prompt).take 8)
  image_name ++ ":" ++ combo_hash

/-! ## `create_job_json` (run_wan_i2v_batch.py, lines 58-92)

The descriptor builder: merges the base configuration with one iteration's
image and combo prompt.  A missing `"prompt"` key defaults to `""` via
`base_config.get("prompt", "")`; the function has no failing path (the
`relative_to` `ValueError` is caught internally). -/

/-- The allow-list of base-configuration parameters copied into a descriptor. -/
def params_to_copy : List String :=
  ["size", "duration", "num_inference_steps", "guidance", "seed",
   "negative_prompt", "flow_shift", "enable_prompt_optimization",
   "enable_safety_checker"]

/-- The `rel_path` computation of `create_job_json`: absolute image paths are
made relative to the worker directory when possible. -/
def relPathFor (image_path base_dir : PyPath) : PyPath :=
  if image_path.absolute then (image_path.relativeTo base_dir).getD image_path
  else image_path

/-- Build the job descriptor for one image + combo combination. -/
def create_job_json (base_config : List (String × Json)) (image_path : PyPath)
    (combo_prompt : String) (base_dir : PyPath) : List (String × Json) :=
  let main_prompt := pyStr ((pyDictGet? base_config "prompt").getD (.str ""))
  let combined_prompt := pyStripS (main_prompt ++ " " ++ combo_prompt)
  let rel_path := relPathFor image_path base_dir
  [("infinidream_algorithm", .str "wan-i2v"),
   ("prompt", .str combined_prompt),
   ("image", .str rel_path.render)]
  ++ params_to_copy.filterMap (fun param =>
       (pyDictGet? base_config param).map (fun v => (param, v)))

/-! ## Dedup ledger (run_wan_i2v_batch.py, lines 95-119 and 490-496)

`get_existing_dream_identifiers` reads the destination playlist's dream items
and extracts the `BATCH_IDENTIFIER:` tag from each item's description + name.
During materialization the orchestrator stamps the tag into a fresh dream's
description (lines 490-496).  Errors while fetching the playlist degrade to
the identifiers collected so far (in practice the empty set); the embedding
covers the per-item extraction on fetched items. -/

/-- The tag that embeds a job identifier in a dream description. -/
def batchMarker : String := "BATCH_IDENTIFIER:"

/-- The marker as a character list. -/
def markerL : List Char := batchMarker.data

/-- One playlist item's dream payload as the ledger reader sees it:
`description` and `name` fields (missing fields default to `""`). -/
structure DreamRec where
  description : String
  name : String
deriving DecidableEq

/-- One playlist item: its `type` tag and optional `dreamItem` payload
(`none` models a missing or falsy `dreamItem`). -/
structure PlaylistItem where
  ty : String
  dreamItem : Option DreamRec
deriving DecidableEq

/-- The per-item identifier extraction of `get_existing_dream_identifiers`:
take the text after the first `BATCH_IDENTIFIER:` occurrence, up to the next
occurrence, and keep its first whitespace-delimited token (or `""`). -/
def extractIdentifier (text : List Char) : List Char :=
  if containsL markerL text then
    let parts := splitOnL markerL text
    if parts.length > 1 then
      match pySplitWs (parts.getD 1 []) with
      | [] => []
      | t :: _ => t
    else []
  else []

/-- `get_existing_dream_identifiers`: the set of identifiers tagged in the
playlist's dream items. -/
def get_existing_dream_identifiers (items : List PlaylistItem) : Finset String :=
  items.foldl (fun acc item =>
    match item.dreamItem with
    | some dream =>
      if item.ty = "dream" then
        let text_to_check := dream.description ++ " " ++ dream.name
        let identifier := extractIdentifier text_to_check.data
        if identifier.isEmpty then acc else insert (String.mk identifier) acc
      else acc
    | none => acc) ∅

/-- The ledger stamp (run_wan_i2v_batch.py, lines 490-496): append
`" BATCH_IDENTIFIER:<identifier>"` to the dream description (stripped),
unless the tagged identifier is already present. -/
def stampDescription (current_desc : String) (job_identifier : String) : String :=
  let identifier_text := batchMarker ++ job_identifier
  if containsL identifier_text.data current_desc.data then current_desc
  else pyStripS (current_desc ++ " " ++ identifier_text)

/-! ## Completion poller (`get_job_result_from_redis`, lines 122-195)

The Redis interaction is a parameter: `store` maps a key to the reply of
`hgetall` (`RedisReply.err` models a raised I/O error), and `parse` models
`json.loads` (`none` models `JSONDecodeError`).  The outer
`except Exception: return None` makes every error path yield `None`;
hash values arrive as UTF-8 bytes and are modelled as the decoded strings. -/

/-- Reply of `redis_client.hgetall(key)`: the field/value hash, or a raised
I/O error. -/
inductive RedisReply where
  | ok (hash : List (String × String)) : RedisReply
  | err : RedisReply

/-- The external world of the poller: the result store and the JSON parser. -/
structure PollEnv where
  store : String → RedisReply
  parse : String → Option Json

/-- Python `job_hash.get(b"returnvalue")` on the string-keyed model of the
hash. -/
def hashGet (h : List (String × String)) (k : String) : Option String :=
  (h.find? (fun kv => kv.1 == k)).map (fun kv => kv.2)

/-- `get_job_result_from_redis(job_id, queue_name)`: read the BullMQ job hash
at `bull:<queue>:<job_id>` and normalize its `returnvalue` field.  Returns
`none` ("pending") when the record or field is absent, the value is empty, or
any store error occurs; wraps an unparseable or non-object payload as
`{"r2_url": <raw text>}`. -/
def get_job_result_from_redis (env : PollEnv) (job_id : String)
    (queue_name : String := "wani2v") : Option Json :=
  match env.store ("bull:" ++ queue_name ++ ":" ++ job_id) with
  | .err => none
  | .ok job_hash =>
    if job_hash.isEmpty then none
    else
      match hashGet job_hash "returnvalue" with
      | none => none
      | some returnvalue_str =>
        if returnvalue_str.isEmpty then none
        else
          match env.parse returnvalue_str with
          | some (.obj fields) => some (.obj fields)
          | some _ =>
            if returnvalue_str.isEmpty then none
            else some (.obj [("r2_url", .str returnvalue_str)])
          | none =>
            if returnvalue_str.isEmpty then none
            else some (.obj [("r2_url", .str returnvalue_str)])

/-! ## Submission client (`queue_job_via_cli`, lines 197-233)

The Node subprocess outcome is a `CompletedProcess` value; the embedding
covers the handle-extraction logic on it.  `json.loads` is again a parameter;
Python's `output_data.get("jobId")` on a non-dict would raise an uncaught
`AttributeError`, modelled by `Except.error` (a JSON text whose first
character is `{` can only parse to an object, so a parser model satisfying
that never reaches it). -/

/-- The result of `subprocess.run` with captured output. -/
structure CompletedProcess where
  returncode : Int
  stdout : String
  stderr : String
deriving DecidableEq

/-- Scan the stripped stdout lines in reverse order for the last line that,
after stripping, starts with `{` and ends with `}`. -/
def lastJsonLine (stdout : String) : Option String :=
  let lines := splitOnL ['\n'] (pyStripL stdout.data)
  (lines.reverse.find? (fun l =>
      let l := pyStripL l
      (l.head? == some '{') && (l.getLast? == some '}'))).map
    (fun l => String.mk (pyStripL l))

/-- The job-ID extraction of `queue_job_via_cli` applied to the completed
subprocess: `Except.ok v` is the Python `job_id` (`Json.null` = `None`),
`Except.error ()` an uncaught exception. -/
def queue_job_via_cli (parse : String → Option Json)
    (result : CompletedProcess) : Except Unit Json :=
  if result.returncode = 0 ∧ result.stdout ≠ "" then
    match lastJsonLine result.stdout with
    | some json_line =>
      match parse json_line with
      | some (.obj output_data) => .ok (pyDictGet output_data "jobId")
      | some _ => .error ()
      | none => .ok .null
    | none => .ok .null
  else .ok .null

/-- The gate predicate: a combination's identifier is already in the ledger. -/
def inLedger (existing_identifiers : Finset String) (p : PyPath × String) : Bool :=
  decide (create_job_identifier p.1 p.2 ∈ existing_identifiers)

/-! ## Submission phase of `main` (run_wan_i2v_batch.py, lines 324-363)

The nested loop over images × combos.  Each combination first passes the
dedup gate (`job_identifier in existing_identifiers` → skip); only past the
gate does the script build the descriptor and invoke the submission
subprocess.  Descriptor building and submission are external effects here and
are modelled by a `submit` parameter giving their outcome per combination;
`trace` records the combinations on which submission was attempted (the
observable calls past the gate). -/

/-- Outcome of the post-gate work for one combination: `jsonError` models an
exception from `create_job_json`, `exc` an exception from
`queue_job_via_cli`, and `queued rc jobId` a completed subprocess with exit
status `rc` and extracted `job_id` (`Json.null` = `None`). -/
inductive SubmitResult where
  | jsonError : SubmitResult
  | exc : SubmitResult
  | queued (returncode : Int) (jobId : Json) : SubmitResult

/-- The mutable state of the queueing loop. -/
structure SubmitState where
  successful_jobs : Nat
  failed_jobs : Nat
  skipped_jobs : Nat
  job_ids : List (String × Json)
  trace : List (PyPath × String)

/-- The initial queueing-loop state. -/
def initSubmitState : SubmitState := ⟨0, 0, 0, [], []⟩

/-- The body of the queueing loop for one image + combo combination. -/
def submitStep (existing_identifiers : Finset String)
    (submit : PyPath → String → SubmitResult) (s : SubmitState)
    (p : PyPath × String) : SubmitState :=
  let job_identifier := create_job_identifier p.1 p.2
  if job_identifier ∈ existing_identifiers then
    { s with skipped_jobs := s.skipped_jobs + 1 }
  else
    let s := { s with trace := s.trace ++ [p] }
    match submit p.1 p.2 with
    | .jsonError => { s with failed_jobs := s.failed_jobs + 1 }
    | .exc => { s with failed_jobs := s.failed_jobs + 1 }
    | .queued rc jobId =>
      if rc = 0 then
        { s with successful_jobs := s.successful_jobs + 1,
                 job_ids :=
                   if pyTruthy jobId then s.job_ids ++ [(job_identifier, jobId)]
                   else s.job_ids }
      else { s with failed_jobs := s.failed_jobs + 1 }

/-- The cross product `images × combos` in the nested-loop order of `main`. -/
def crossCombos (images : List PyPath) (combos : List String) :
    List (PyPath × String) :=
  images.flatMap (fun img => combos.map (fun combo => (img, combo)))

/-- The whole queueing loop. -/
def submitPhase (existing_identifiers : Finset String)
    (submit : PyPath → String → SubmitResult) (images : List PyPath)
    (combos : List String) : SubmitState :=
  (crossCombos images combos).foldl (submitStep existing_identifiers submit)
    initSubmitState

/-! ## Poll / materialize loop of `main` (run_wan_i2v_batch.py, lines 438-536)

Per cycle the loop scans the outstanding job tuples once; a job whose Redis
result carries a truthy `r2_url` is materialized (download, upload to the
playlist, stamp); on success `uploaded_count` grows and the job ID enters
`processed_jobs`, on any failure the tuple is appended to `remaining_jobs`
for a retry on the next cycle.  Between cycles the loop sleeps
`poll_interval` seconds; the whole phase is bounded by the `max_wait_time`
wall-clock deadline checked before each cycle.  Network time inside a cycle
is not modelled (time advances only by the sleep), matching the liveness
claim's model.  The materialization outcome per attempt is the external
parameter `mat`. -/

/-- `max_wait_time` (line 440). -/
def max_wait_time : Nat := 3600

/-- `poll_interval` (line 441). -/
def poll_interval : Nat := 10

/-- One tracked job tuple
`(job_id, job_identifier, image_name, combo_idx, image_path)`. -/
structure JobRec where
  jobId : String
  jobIdentifier : String
  imageName : String
  comboIdx : Nat
  imagePath : PyPath
deriving DecidableEq

/-- `result and result.get("r2_url")`: the job's Redis record is present,
truthy, and carries a truthy `r2_url`. -/
def cycleCompleted (env : PollEnv) (job_id : String) : Bool :=
  match get_job_result_from_redis env job_id with
  | some result =>
    pyTruthy result &&
      pyTruthy (match result with | .obj fields => pyDictGet fields "r2_url" | _ => .null)
  | none => false

/-- Prepend a retried job tuple to a cycle's `(remaining, processed,
uploaded)` result. -/
def retryJob (job : JobRec) (t : List JobRec × Finset String × Nat) :
    List JobRec × Finset String × Nat :=
  (job :: t.1, t.2)

/-- One poll cycle (the `for` loop over `job_ids`): returns the new
`remaining_jobs`, `processed_jobs` and `uploaded_count`. -/
def runCycle (env : PollEnv) (mat : JobRec → Bool) :
    List JobRec → Finset String → Nat → List JobRec × Finset String × Nat
  | [], processed_jobs, uploaded_count => ([], processed_jobs, uploaded_count)
  | job :: rest, processed_jobs, uploaded_count =>
    if job.jobId ∈ processed_jobs then
      runCycle env mat rest processed_jobs uploaded_count
    else if cycleCompleted env job.jobId then
      if mat job then
        runCycle env mat rest (insert job.jobId processed_jobs)
          (uploaded_count + 1)
      else retryJob job (runCycle env mat rest processed_jobs uploaded_count)
    else retryJob job (runCycle env mat rest processed_jobs uploaded_count)

/-- The loop state across poll cycles.  `t` is the elapsed wall-clock time in
seconds (`time.time() - start_time`); `failed_jobs` is the submission-phase
counter, untouched by this loop. -/
structure BatchState where
  jobs : List JobRec
  processed : Finset String
  uploaded : Nat
  failed : Nat
  t : Nat

/-- The poll loop (`while job_ids and (time.time() - start_time) <
max_wait_time`).  `envs c` gives the Redis state and materialization outcomes
during cycle `c`; `D` is the deadline and `I` the sleep interval (positive,
so that time advances). -/
def runPollLoop (envs : Nat → PollEnv × (JobRec → Bool)) (D I : Nat)
    (hI : 0 < I) (c : Nat) (s : BatchState) : BatchState :=
  if s.jobs ≠ [] ∧ s.t < D then
    if (runCycle (envs c).1 (envs c).2 s.jobs s.processed s.uploaded).1 = [] then
      { jobs := (runCycle (envs c).1 (envs c).2 s.jobs s.processed s.uploaded).1,
        processed := (runCycle (envs c).1 (envs c).2 s.jobs s.processed s.uploaded).2.1,
        uploaded := (runCycle (envs c).1 (envs c).2 s.jobs s.processed s.uploaded).2.2,
        failed := s.failed, t := s.t }
    else
      runPollLoop envs D I hI (c + 1)
        { jobs := (runCycle (envs c).1 (envs c).2 s.jobs s.processed s.uploaded).1,
          processed := (runCycle (envs c).1 (envs c).2 s.jobs s.processed s.uploaded).2.1,
          uploaded := (runCycle (envs c).1 (envs c).2 s.jobs s.processed s.uploaded).2.2,
          failed := s.failed, t := s.t + I }
  else s
termination_by D - s.t
decreasing_by
  omega

/-! ## Uprez batch marking (run_uprez_batch.py, lines 57-65 and 211-236)

The dream store is the remote service state: `get` models `client.get_dream`
(`err` = raised exception, `noDream` = falsy result) and `updateErr` tells
whether `client.update_dream` would raise for a given dream.  Setting a
description yields an updated store. -/

/-- Reply of `client.get_dream(uuid)`. -/
inductive DreamReply where
  | err : DreamReply
  | noDream : DreamReply
  | found (description : Option String) : DreamReply

/-- The remote dream store as the uprez script sees it. -/
structure DreamStore where
  get : String → DreamReply
  updateErr : String → Bool

/-- The store after `client.update_dream(uuid, {"description": desc})`. -/
def setDescription (st : DreamStore) (uuid : String) (desc : String) :
    DreamStore :=
  ⟨fun u => if u = uuid then
      match st.get u with
      | .found _ => .found (some desc)
      | other => other
    else st.get u,
   st.updateErr⟩

/-- `is_dream_already_uprezed`: the dedup check of the uprez batch. -/
def is_dream_already_uprezed (st : DreamStore) (original_dream_uuid : String)
    (marker : String := "uprez") : Bool :=
  match st.get original_dream_uuid with
  | .err => false
  | .noDream => false
  | .found desc? => containsLower marker (desc?.getD "")

/-- `update_dream_description`: mark a source dream as processed by appending
the marker to its description, unless already present (case-insensitive).
Returns the new store and the reported success flag. -/
def update_dream_description (st : DreamStore) (dream_uuid : String)
    (marker : String := "uprez") : DreamStore × Bool :=
  match st.get dream_uuid with
  | .err => (st, false)
  | .noDream => (st, false)
  | .found desc? =>
    let current_description := desc?.getD ""
    if containsLower marker current_description then (st, true)
    else
      let new_description :=
        if current_description ≠ "" then current_description ++ " " ++ marker
        else marker
      if st.updateErr dream_uuid then (st, false)
      else (setDescription st dream_uuid new_description, true)

/-! ## Helper lemmas on the Python string primitives -/

/-- `containsL` is exactly the existence of an occurrence decomposition. -/
theorem containsL_iff (sub : List Char) :
    ∀ s : List Char, containsL sub s = true ↔ ∃ a b, s = a ++ sub ++ b := by
  intro s
  induction s with
  | nil =>
    simp only [containsL, List.isEmpty_eq_true]
    constructor
    · rintro rfl
      exact ⟨[], [], rfl⟩
    · rintro ⟨a, b, hab⟩
      rcases List.append_eq_nil.mp (List.append_eq_nil.mp hab.symm).1 with ⟨-, h2⟩
      exact h2
  | cons c t ih =>
    simp only [containsL, Bool.or_eq_true, List.isPrefixOf_iff_prefix, ih]
    constructor
    · rintro (⟨r, hr⟩ | ⟨a, b, rfl⟩)
      · exact ⟨[], r, by simp [← hr]⟩
      · exact ⟨c :: a, b, rfl⟩
    · rintro ⟨a, b, hab⟩
      match a, hab with
      | [], hab => exact Or.inl ⟨b, by simp at hab ⊢; exact hab.symm⟩
      | a₀ :: a', hab =>
        rw [List.cons_append, List.cons_append, List.cons.injEq] at hab
        exact Or.inr ⟨a', b, hab.2⟩

/-- A string containing `sub` still contains it after appending on either
side. -/
theorem containsL_append_of_containsL (sub x : List Char)
    (h : containsL sub x = true) (pre post : List Char) :
    containsL sub (pre ++ x ++ post) = true := by
  rcases (containsL_iff sub x).mp h with ⟨a, b, rfl⟩
  exact (containsL_iff sub _).mpr ⟨pre ++ a, b ++ post, by simp⟩

/-- Any full decomposition witnesses containment. -/
theorem containsL_of_decomp (sub a b : List Char) :
    containsL sub (a ++ sub ++ b) = true :=
  (containsL_iff sub _).mpr ⟨a, b, rfl⟩

/-- If a tag `m ++ i` occurs in a string, so does `m`. -/
theorem containsL_of_containsL_append (m i s : List Char)
    (h : containsL (m ++ i) s = true) : containsL m s = true := by
  rcases (containsL_iff _ s).mp h with ⟨a, b, rfl⟩
  exact (containsL_iff m _).mpr ⟨a, i ++ b, by simp⟩

/-- Dropping a space at the head does not change `strip`. -/
theorem pyStripL_cons_space (l : List Char) :
    pyStripL (' ' :: l) = pyStripL l := by
  simp [pyStripL, lstripL, List.dropWhile_cons, pyIsSpace]

/-- The data of the one-space string literal. -/
theorem space_data : (" " : String).data = [' '] := rfl

/-! ## C2: determinism of the identifier deriver -/

/-- C2: `create_job_identifier` is a pure function of the image file name and
the combo prompt: two invocations with the same final file name and the same
combo prompt return the same string (the name joined by `":"` with the first
8 hex digits of the MD5 of the prompt).  Purity and absence of I/O are
visible in the embedding: the function reads nothing but its two
arguments. -/
theorem create_job_identifier_deterministic (p₁ p₂ : PyPath) (c₁ c₂ : String)
    (hname : p₁.name = p₂.name) (hcombo : c₁ = c₂) :
    create_job_identifier p₁ c₁ = create_job_identifier p₂ c₂ ∧
    create_job_identifier p₁ c₁ =
      p₁.name ++ ":" ++ String.mk ((md5HexStr c₁).take 8) := by
  subst hcombo
  constructor
  · simp [create_job_identifier, hname]
  · rfl

/-- Witness for C2 at two distinct concrete paths sharing a file name. -/
theorem create_job_identifier_deterministic_witness :
    PyPath.name ⟨true, ["images", "cat.png"]⟩ = PyPath.name ⟨false, ["cat.png"]⟩ ∧
    (create_job_identifier ⟨true, ["images", "cat.png"]⟩ "sunset" =
        create_job_identifier ⟨false, ["cat.png"]⟩ "sunset" ∧
     create_job_identifier ⟨true, ["images", "cat.png"]⟩ "sunset" =
        PyPath.name ⟨true, ["images", "cat.png"]⟩ ++ ":" ++
          String.mk ((md5HexStr "sunset").take 8)) :=
  ⟨by decide,
   create_job_identifier_deterministic ⟨true, ["images", "cat.png"]⟩
     ⟨false, ["cat.png"]⟩ "sunset" "sunset" (by decide) rfl⟩

/-! ## C3: the poller returns pending on missing data and swallowed errors -/

/-- C3: a poll query against a result store with no record under the
namespaced key `bull:<queue>:<job_id>` (an empty `hgetall` reply), or whose
record lacks the `returnvalue` field, returns pending (`none`); and a raised
I/O error while talking to the store is swallowed and also yields `none`.
The embedding is total, so no exception propagates out of the poller. -/
theorem poller_missing_returns_pending (env : PollEnv) (job_id queue_name : String) :
    (env.store ("bull:" ++ queue_name ++ ":" ++ job_id) = .ok [] →
      get_job_result_from_redis env job_id queue_name = none) ∧
    (∀ h, env.store ("bull:" ++ queue_name ++ ":" ++ job_id) = .ok h →
      hashGet h "returnvalue" = none →
      get_job_result_from_redis env job_id queue_name = none) ∧
    (env.store ("bull:" ++ queue_name ++ ":" ++ job_id) = .err →
      get_job_result_from_redis env job_id queue_name = none) := by
  refine ⟨fun hs => ?_, fun h hs hrv => ?_, fun hs => ?_⟩
  · simp [get_job_result_from_redis, hs]
  · rcases h with _ | ⟨kv, h⟩
    · simp [get_job_result_from_redis, hs]
    · simp [get_job_result_from_redis, hs, hrv]
  · simp [get_job_result_from_redis, hs]

/-- Witness for C3: a store that errors, one with no record, and the same
record shape lacking `returnvalue`, all at job `"7"`. -/
theorem poller_missing_returns_pending_witness :
    (PollEnv.store ⟨fun _ => .ok [], fun _ => none⟩ ("bull:" ++ "wani2v" ++ ":" ++ "7") = .ok [] →
      get_job_result_from_redis ⟨fun _ => .ok [], fun _ => none⟩ "7" "wani2v" = none) ∧
    (∀ h, PollEnv.store ⟨fun _ => .ok [], fun _ => none⟩ ("bull:" ++ "wani2v" ++ ":" ++ "7") = .ok h →
      hashGet h "returnvalue" = none →
      get_job_result_from_redis ⟨fun _ => .ok [], fun _ => none⟩ "7" "wani2v" = none) ∧
    (PollEnv.store ⟨fun _ => .ok [], fun _ => none⟩ ("bull:" ++ "wani2v" ++ ":" ++ "7") = .err →
      get_job_result_from_redis ⟨fun _ => .ok [], fun _ => none⟩ "7" "wani2v" = none) :=
  poller_missing_returns_pending ⟨fun _ => .ok [], fun _ => none⟩ "7" "wani2v"

/-! ## C4: raw-string completion payloads are wrapped -/

/-- C4: when the `returnvalue` field holds a non-empty string that does not
parse as JSON, or parses to a non-object value, the poller returns a record
whose `r2_url` field is exactly that raw string; an empty string yields
pending (`none`). -/
theorem poller_raw_string_wrapped (env : PollEnv) (job_id queue_name : String)
    (h : List (String × String)) (rv : String)
    (hstore : env.store ("bull:" ++ queue_name ++ ":" ++ job_id) = .ok h)
    (hne : h ≠ [])
    (hrv : hashGet h "returnvalue" = some rv)
    (hparse : env.parse rv = none ∨
      ∃ j, env.parse rv = some j ∧ ∀ fields, j ≠ Json.obj fields) :
    (rv ≠ "" → get_job_result_from_redis env job_id queue_name =
      some (.obj [("r2_url", .str rv)])) ∧
    (rv = "" → get_job_result_from_redis env job_id queue_name = none) := by
  constructor
  · intro hrvne
    have hrvne' : rv.isEmpty = false := by
      cases hh : rv.isEmpty
      · rfl
      · exact absurd ((String.isEmpty_iff rv).mp hh) hrvne
    rcases hparse with hp | ⟨j, hp, hobj⟩
    · simp [get_job_result_from_redis, hstore, List.isEmpty_eq_false.mpr hne,
        hrv, hrvne', hp]
    · cases j with
      | obj fields => exact absurd rfl (hobj fields)
      | null => simp [get_job_result_from_redis, hstore,
          List.isEmpty_eq_false.mpr hne, hrv, hrvne', hp]
      | bool b => simp [get_job_result_from_redis, hstore,
          List.isEmpty_eq_false.mpr hne, hrv, hrvne', hp]
      | num n => simp [get_job_result_from_redis, hstore,
          List.isEmpty_eq_false.mpr hne, hrv, hrvne', hp]
      | str s => simp [get_job_result_from_redis, hstore,
          List.isEmpty_eq_false.mpr hne, hrv, hrvne', hp]
      | arr elems => simp [get_job_result_from_redis, hstore,
          List.isEmpty_eq_false.mpr hne, hrv, hrvne', hp]
  · intro hrvempty
    subst hrvempty
    simp [get_job_result_from_redis, hstore, List.isEmpty_eq_false.mpr hne, hrv,
      show ("" : String).isEmpty = true from rfl]

/-- Witness for C4: a record whose `returnvalue` is the unparseable text
`"hello"`. -/
theorem poller_raw_string_wrapped_witness :
    ("hello" ≠ "" → get_job_result_from_redis
        ⟨fun _ => .ok [("returnvalue", "hello")], fun _ => none⟩ "7" "wani2v" =
      some (.obj [("r2_url", .str "hello")])) ∧
    ("hello" = "" → get_job_result_from_redis
        ⟨fun _ => .ok [("returnvalue", "hello")], fun _ => none⟩ "7" "wani2v" = none) :=
  poller_raw_string_wrapped ⟨fun _ => .ok [("returnvalue", "hello")], fun _ => none⟩
    "7" "wani2v" [("returnvalue", "hello")] "hello" rfl (by decide) rfl (Or.inl rfl)

/-! ## C5: a missing prompt does not abort the descriptor builder

The claim says a required field that is absent after the merge (in
particular, a missing prompt) makes the builder fail with a `ConfigError`.
The code has no such path: `base_config.get("prompt", "")` silently defaults
the prompt to the empty string and `create_job_json` always returns a
descriptor (its only internal exception, from `relative_to`, is caught).
The counterexample below evaluates the builder on a configuration with no
prompt; the amended theorem states the actual behavior. -/

/-- C5 counterexample: on a base configuration lacking a prompt the builder
does not fail but returns a complete descriptor whose prompt is the stripped
combo prompt. -/
theorem create_job_json_missing_prompt_counterexample :
    create_job_json [] ⟨false, ["img.png"]⟩ "sunset" ⟨false, []⟩ =
      [("infinidream_algorithm", .str "wan-i2v"), ("prompt", .str "sunset"),
       ("image", .str "img.png")] := by
  rfl

/-- C5 (amended): for every base configuration lacking a prompt, the
descriptor builder does not fail: it yields a non-empty descriptor whose
prompt field is the stripped combo prompt (the missing prompt defaults to the
empty string); no `ConfigError` exists in the code. -/
theorem create_job_json_missing_prompt_defaults
    (base_config : List (String × Json)) (image_path : PyPath)
    (combo_prompt : String) (base_dir : PyPath)
    (hprompt : pyDictGet? base_config "prompt" = none) :
    pyDictGet? (create_job_json base_config image_path combo_prompt base_dir)
        "prompt" = some (.str (pyStripS combo_prompt)) ∧
    create_job_json base_config image_path combo_prompt base_dir ≠ [] := by
  constructor
  · have hstrip : pyStripS ((pyStr (.str "")) ++ " " ++ combo_prompt) =
        pyStripS combo_prompt := by
      show String.mk (pyStripL (' ' :: combo_prompt.data)) =
        String.mk (pyStripL combo_prompt.data)
      rw [pyStripL_cons_space]
    simp only [create_job_json, hprompt, Option.getD_none, hstrip]
    simp [pyDictGet?, List.find?]
  · simp [create_job_json]

/-- Witness for C5 (amended) at a concrete promptless configuration. -/
theorem create_job_json_missing_prompt_defaults_witness :
    pyDictGet? (create_job_json [("seed", .num 3)] ⟨false, ["img.png"]⟩ " sunset "
        ⟨false, []⟩) "prompt" = some (.str (pyStripS " sunset ")) ∧
    create_job_json [("seed", .num 3)] ⟨false, ["img.png"]⟩ " sunset "
        ⟨false, []⟩ ≠ [] :=
  create_job_json_missing_prompt_defaults [("seed", .num 3)] ⟨false, ["img.png"]⟩
    " sunset " ⟨false, []⟩ rfl

/-! ## C1: dedup filtering of the submission loop -/

/-- One step of the queueing loop leaves `trace` and `skipped_jobs` as the
gate alone dictates. -/
theorem submitStep_effect (existing_identifiers : Finset String)
    (submit : PyPath → String → SubmitResult) (s : SubmitState)
    (p : PyPath × String) :
    ((inLedger existing_identifiers p = true →
        (submitStep existing_identifiers submit s p).trace = s.trace ∧
        (submitStep existing_identifiers submit s p).skipped_jobs =
          s.skipped_jobs + 1)) ∧
    ((inLedger existing_identifiers p = false →
        (submitStep existing_identifiers submit s p).trace = s.trace ++ [p] ∧
        (submitStep existing_identifiers submit s p).skipped_jobs =
          s.skipped_jobs)) := by
  constructor
  · intro hmem
    have hm : create_job_identifier p.1 p.2 ∈ existing_identifiers :=
      of_decide_eq_true hmem
    simp [submitStep, hm]
  · intro hmem
    have hm : create_job_identifier p.1 p.2 ∉ existing_identifiers :=
      of_decide_eq_false hmem
    cases hsub : submit p.1 p.2 with
    | jsonError => simp [submitStep, hm, hsub]
    | exc => simp [submitStep, hm, hsub]
    | queued rc jobId =>
      by_cases hrc : rc = 0
      · simp [submitStep, hm, hsub, hrc]
      · simp [submitStep, hm, hsub, hrc]

/-- The queueing fold filters by the gate and counts the skips, from any
starting state. -/
theorem submitFold_spec (existing_identifiers : Finset String)
    (submit : PyPath → String → SubmitResult) :
    ∀ (l : List (PyPath × String)) (s : SubmitState),
      (l.foldl (submitStep existing_identifiers submit) s).trace =
        s.trace ++ l.filter (fun p => !inLedger existing_identifiers p) ∧
      (l.foldl (submitStep existing_identifiers submit) s).skipped_jobs =
        s.skipped_jobs + l.countP (inLedger existing_identifiers) := by
  intro l
  induction l with
  | nil => intro s; simp
  | cons p l ih =>
    intro s
    rcases submitStep_effect existing_identifiers submit s p with ⟨hin, hout⟩
    by_cases hp : inLedger existing_identifiers p = true
    · rcases hin hp with ⟨ht, hk⟩
      rcases ih (submitStep existing_identifiers submit s p) with ⟨iht, ihk⟩
      refine ⟨?_, ?_⟩
      · rw [List.foldl_cons, iht, ht, List.filter_cons]
        simp [hp]
      · rw [List.foldl_cons, ihk, hk, List.countP_cons]
        simp [hp]
        omega
    · have hp' : inLedger existing_identifiers p = false := by
        cases h : inLedger existing_identifiers p
        · rfl
        · exact absurd h hp
      rcases hout hp' with ⟨ht, hk⟩
      rcases ih (submitStep existing_identifiers submit s p) with ⟨iht, ihk⟩
      refine ⟨?_, ?_⟩
      · rw [List.foldl_cons, iht, ht, List.filter_cons]
        simp [hp']
      · rw [List.foldl_cons, ihk, hk, List.countP_cons]
        simp [hp']

/-- C1: over any ledger set and any image × combo cross product, the
combinations on which submission is attempted are exactly the cross product
minus those whose derived identifier is in the ledger (in loop order); each
ledger hit increments the skipped count by exactly one (the count equals the
number of hits); and no combination whose identifier is in the ledger is ever
submitted. -/
theorem submission_dedup_filter (existing_identifiers : Finset String)
    (submit : PyPath → String → SubmitResult) (images : List PyPath)
    (combos : List String) :
    (submitPhase existing_identifiers submit images combos).trace =
      (crossCombos images combos).filter
        (fun p => !inLedger existing_identifiers p) ∧
    (submitPhase existing_identifiers submit images combos).skipped_jobs =
      (crossCombos images combos).countP (inLedger existing_identifiers) ∧
    ∀ p ∈ (submitPhase existing_identifiers submit images combos).trace,
      create_job_identifier p.1 p.2 ∉ existing_identifiers := by
  rcases submitFold_spec existing_identifiers submit (crossCombos images combos)
    initSubmitState with ⟨ht, hk⟩
  refine ⟨?_, ?_, ?_⟩
  · simpa [submitPhase, initSubmitState] using ht
  · simpa [submitPhase, initSubmitState] using hk
  · intro p hp
    have ht' : (submitPhase existing_identifiers submit images combos).trace =
        (crossCombos images combos).filter
          (fun p => !inLedger existing_identifiers p) := by
      simpa [submitPhase, initSubmitState] using ht
    rw [ht'] at hp
    have := (List.mem_filter.mp hp).2
    simp only [Bool.not_eq_true', inLedger] at this
    exact of_decide_eq_false this

/-- Witness for C1: 2 images × 2 combos with one identifier already in the
ledger (the spec's 6-combination scenario scaled down). -/
theorem submission_dedup_filter_witness :
    (submitPhase {create_job_identifier ⟨false, ["a.png"]⟩ "x"}
        (fun _ _ => .queued 0 (.str "1")) [⟨false, ["a.png"]⟩, ⟨false, ["b.png"]⟩]
        ["x", "y"]).trace =
      (crossCombos [⟨false, ["a.png"]⟩, ⟨false, ["b.png"]⟩] ["x", "y"]).filter
        (fun p => !inLedger {create_job_identifier ⟨false, ["a.png"]⟩ "x"} p) ∧
    (submitPhase {create_job_identifier ⟨false, ["a.png"]⟩ "x"}
        (fun _ _ => .queued 0 (.str "1")) [⟨false, ["a.png"]⟩, ⟨false, ["b.png"]⟩]
        ["x", "y"]).skipped_jobs =
      (crossCombos [⟨false, ["a.png"]⟩, ⟨false, ["b.png"]⟩] ["x", "y"]).countP
        (inLedger {create_job_identifier ⟨false, ["a.png"]⟩ "x"}) ∧
    ∀ p ∈ (submitPhase {create_job_identifier ⟨false, ["a.png"]⟩ "x"}
        (fun _ _ => .queued 0 (.str "1")) [⟨false, ["a.png"]⟩, ⟨false, ["b.png"]⟩]
        ["x", "y"]).trace,
      create_job_identifier p.1 p.2 ∉
        ({create_job_identifier ⟨false, ["a.png"]⟩ "x"} : Finset String) :=
  submission_dedup_filter {create_job_identifier ⟨false, ["a.png"]⟩ "x"}
    (fun _ _ => .queued 0 (.str "1")) [⟨false, ["a.png"]⟩, ⟨false, ["b.png"]⟩]
    ["x", "y"]

/-! ## C10: idempotent uprez marking and the dedup check -/

/-- `toLowerL` distributes over append. -/
theorem toLowerL_append (a b : List Char) :
    toLowerL (a ++ b) = toLowerL a ++ toLowerL b := by
  simp [toLowerL]

/-- A string contains its own suffix. -/
theorem containsL_suffix (sub a : List Char) : containsL sub (a ++ sub) = true :=
  (containsL_iff sub _).mpr ⟨a, [], by simp⟩

/-- Appending the marker (after any separator) makes the case-insensitive
containment test true. -/
theorem containsLower_append_self (x marker : String) :
    containsLower marker (x ++ " " ++ marker) = true := by
  simp only [containsLower, String.data_append, toLowerL_append]
  have := containsL_suffix (toLowerL marker.data)
    (toLowerL x.data ++ toLowerL (" " : String).data)
  simpa [List.append_assoc] using this

/-- The containment test is true on the marker itself. -/
theorem containsLower_self (marker : String) :
    containsLower marker marker = true := by
  have := containsL_suffix (toLowerL marker.data) []
  simpa [containsLower] using this

/-- C10: marking a source dream as processed is idempotent, and the dedup
check reads exactly the marker containment.  Concretely: (a) when the
dream's description already contains the marker case-insensitively, the
marking reports success and leaves the store (hence the description)
unchanged; (b) applying the marking twice always equals applying it once;
(c) `is_dream_already_uprezed` returns true for a fetched dream exactly when
its description contains the marker as a case-insensitive substring. -/
theorem uprez_marking_idempotent (st : DreamStore) (uuid marker : String)
    (desc? : Option String) :
    (st.get uuid = .found desc? → containsLower marker (desc?.getD "") = true →
      update_dream_description st uuid marker = (st, true)) ∧
    (update_dream_description (update_dream_description st uuid marker).1 uuid
        marker = update_dream_description st uuid marker) ∧
    (st.get uuid = .found desc? →
      is_dream_already_uprezed st uuid marker =
        containsLower marker (desc?.getD "")) := by
  refine ⟨fun hget hcont => ?_, ?_, fun hget => ?_⟩
  · simp [update_dream_description, hget, hcont]
  · cases hget : st.get uuid with
    | err => simp [update_dream_description, hget]
    | noDream => simp [update_dream_description, hget]
    | found d? =>
      cases hcont : containsLower marker (d?.getD "") with
      | true => simp [update_dream_description, hget, hcont]
      | false =>
        cases herr : st.updateErr uuid with
        | true => simp [update_dream_description, hget, hcont, herr]
        | false =>
          by_cases hd : (d?.getD "") = ""
          · rw [hd] at hcont
            have hmark : containsLower marker marker = true :=
              containsLower_self marker
            simp [update_dream_description, hget, hcont, herr, hd,
              setDescription, hmark]
          · have hmark : containsLower marker ((d?.getD "") ++ " " ++ marker) =
                true := containsLower_append_self _ marker
            simp [update_dream_description, hget, hcont, herr, hd,
              setDescription, hmark]
  · simp [is_dream_already_uprezed, hget]

/-- Witness for C10 at a concrete store whose dream description already
carries the marker in mixed case. -/
theorem uprez_marking_idempotent_witness :
    ((DreamStore.get ⟨fun _ => .found (some "done UPREZ pass"), fun _ => false⟩
        "u1" = .found (some "done UPREZ pass") →
      containsLower "uprez" ((some "done UPREZ pass").getD "") = true →
      update_dream_description ⟨fun _ => .found (some "done UPREZ pass"),
        fun _ => false⟩ "u1" "uprez" =
        (⟨fun _ => .found (some "done UPREZ pass"), fun _ => false⟩, true)) ∧
    (update_dream_description (update_dream_description
        ⟨fun _ => .found (some "done UPREZ pass"), fun _ => false⟩ "u1"
        "uprez").1 "u1" "uprez" =
      update_dream_description ⟨fun _ => .found (some "done UPREZ pass"),
        fun _ => false⟩ "u1" "uprez") ∧
    (DreamStore.get ⟨fun _ => .found (some "done UPREZ pass"), fun _ => false⟩
        "u1" = .found (some "done UPREZ pass") →
      is_dream_already_uprezed ⟨fun _ => .found (some "done UPREZ pass"),
        fun _ => false⟩ "u1" "uprez" =
        containsLower "uprez" ((some "done UPREZ pass").getD ""))) :=
  uprez_marking_idempotent ⟨fun _ => .found (some "done UPREZ pass"),
    fun _ => false⟩ "u1" "uprez" (some "done UPREZ pass")

/-! ## C7: the poll loop terminates within `D + I` -/

/-- Bound for the poll loop by induction on the remaining deadline: if the
elapsed time is below `D + I` at entry, it stays below `D + I` at exit, and
the loop only exits with an empty outstanding set or an expired deadline. -/
theorem runPollLoop_bound (envs : Nat → PollEnv × (JobRec → Bool)) (D I : Nat)
    (hI : 0 < I) :
    ∀ n c s, D - s.t ≤ n → s.t < D + I →
      (runPollLoop envs D I hI c s).t < D + I ∧
      ((runPollLoop envs D I hI c s).jobs = [] ∨
        D ≤ (runPollLoop envs D I hI c s).t) := by
  intro n
  induction n with
  | zero =>
    intro c s hn ht
    rw [runPollLoop]
    have hg : ¬(s.jobs ≠ [] ∧ s.t < D) := by
      rintro ⟨-, hlt⟩
      omega
    rw [if_neg hg]
    refine ⟨ht, Or.inr ?_⟩
    omega
  | succ n ih =>
    intro c s hn ht
    rw [runPollLoop]
    by_cases hg : s.jobs ≠ [] ∧ s.t < D
    · rw [if_pos hg]
      by_cases hr :
          (runCycle (envs c).1 (envs c).2 s.jobs s.processed s.uploaded).1 = []
      · rw [if_pos hr]
        exact ⟨ht, Or.inl hr⟩
      · rw [if_neg hr]
        exact ih (c + 1) _ (by simp only; omega) (by simp only; omega)
    · rw [if_neg hg]
      rw [not_and_or] at hg
      rcases hg with h | h
      · exact ⟨ht, Or.inl (not_ne_iff.mp h)⟩
      · exact ⟨ht, Or.inr (by omega)⟩

/-- C7: for every deadline `D` and positive poll interval `I`, and every set
of outstanding handles, the poll loop exits with elapsed time strictly below
`D + I` (time advances only by the inter-cycle sleep, matching the claim's
zero-cost model of queries and materialization); there is no per-job
deadline: the loop only stops on an empty outstanding set or the expired
batch deadline. -/
theorem poll_loop_deadline (envs : Nat → PollEnv × (JobRec → Bool)) (D I : Nat)
    (hI : 0 < I) (c : Nat) (s : BatchState) (hstart : s.t = 0) :
    (runPollLoop envs D I hI c s).t < D + I ∧
    ((runPollLoop envs D I hI c s).jobs = [] ∨
      D ≤ (runPollLoop envs D I hI c s).t) :=
  runPollLoop_bound envs D I hI (D - s.t) c s le_rfl (by omega)

/-- The source's poll interval is positive. -/
theorem poll_interval_pos : 0 < poll_interval := by decide

/-- Witness for C7 at the source constants `max_wait_time = 3600`,
`poll_interval = 10`, one outstanding job, and a store that always errors. -/
theorem poll_loop_deadline_witness :
    (runPollLoop (fun _ => (⟨fun _ => RedisReply.err, fun _ => none⟩,
        fun _ => false)) max_wait_time poll_interval poll_interval_pos 0
        ⟨[⟨"1", "a.png:00000000", "a", 1, ⟨false, ["a.png"]⟩⟩], ∅, 0, 0, 0⟩).t <
      max_wait_time + poll_interval ∧
    ((runPollLoop (fun _ => (⟨fun _ => RedisReply.err, fun _ => none⟩,
        fun _ => false)) max_wait_time poll_interval poll_interval_pos 0
        ⟨[⟨"1", "a.png:00000000", "a", 1, ⟨false, ["a.png"]⟩⟩], ∅, 0, 0, 0⟩).jobs =
        [] ∨
      max_wait_time ≤ (runPollLoop (fun _ => (⟨fun _ => RedisReply.err,
        fun _ => none⟩, fun _ => false)) max_wait_time poll_interval
        poll_interval_pos 0
        ⟨[⟨"1", "a.png:00000000", "a", 1, ⟨false, ["a.png"]⟩⟩], ∅, 0, 0, 0⟩).t) :=
  poll_loop_deadline (fun _ => (⟨fun _ => RedisReply.err, fun _ => none⟩,
    fun _ => false)) max_wait_time poll_interval poll_interval_pos 0
    ⟨[⟨"1", "a.png:00000000", "a", 1, ⟨false, ["a.png"]⟩⟩], ∅, 0, 0, 0⟩ rfl

/-! ## C6: handle extraction from the submission subprocess output -/

/-- C6: under any JSON-parser model in which a successfully parsed text is an
object (true of `json.loads` on a line that starts with `{`), the extraction
never lets an exception escape, and a handle is produced exactly when the
process exited with status zero, produced output, and the last line that
(after stripping) is a complete braced object parses to an object with a
non-`None` `jobId` field; earlier log noise above that line is ignored. -/
theorem queue_job_via_cli_spec (parse : String → Option Json)
    (hp : ∀ s j, parse s = some j → ∃ fields, j = Json.obj fields)
    (result : CompletedProcess) :
    (∃ v, queue_job_via_cli parse result = .ok v) ∧
    (∀ v, v ≠ Json.null →
      (queue_job_via_cli parse result = .ok v ↔
        result.returncode = 0 ∧ result.stdout ≠ "" ∧
        ∃ line fields, lastJsonLine result.stdout = some line ∧
          parse line = some (.obj fields) ∧ pyDictGet fields "jobId" = v)) := by
  by_cases hrc : result.returncode = 0 ∧ result.stdout ≠ ""
  · cases hline : lastJsonLine result.stdout with
    | none =>
      constructor
      · exact ⟨.null, by simp [queue_job_via_cli, hrc, hline]⟩
      · intro v hv
        constructor
        · intro hok
          simp only [queue_job_via_cli, if_pos hrc, hline] at hok
          exact absurd (Except.ok.inj hok).symm hv
        · rintro ⟨-, -, line, fields, hline', -, -⟩
          exact Option.noConfusion hline'
    | some line =>
      cases hparse : parse line with
      | none =>
        constructor
        · exact ⟨.null, by simp [queue_job_via_cli, hrc, hline, hparse]⟩
        · intro v hv
          constructor
          · intro hok
            simp only [queue_job_via_cli, if_pos hrc, hline, hparse] at hok
            exact absurd (Except.ok.inj hok).symm hv
          · rintro ⟨-, -, line', fields, hline', hparse', -⟩
            obtain rfl := Option.some.inj hline'
            rw [hparse] at hparse'
            exact Option.noConfusion hparse'
      | some j =>
        rcases hp line j hparse with ⟨fields, rfl⟩
        constructor
        · exact ⟨pyDictGet fields "jobId",
            by simp [queue_job_via_cli, hrc, hline, hparse]⟩
        · intro v hv
          constructor
          · intro hok
            simp only [queue_job_via_cli, if_pos hrc, hline, hparse] at hok
            exact ⟨hrc.1, hrc.2, line, fields, rfl, hparse,
              Except.ok.inj hok⟩
          · rintro ⟨-, -, line', fields', hline', hparse', hfield⟩
            obtain rfl := Option.some.inj hline'
            rw [hparse] at hparse'
            have hf : fields = fields' := by
              have hobj := Option.some.inj hparse'
              injection hobj
            subst hf
            simp [queue_job_via_cli, hrc, hline, hparse, hfield]
  · constructor
    · exact ⟨.null, by simp [queue_job_via_cli, hrc]⟩
    · intro v hv
      constructor
      · intro hok
        simp only [queue_job_via_cli, if_neg hrc] at hok
        exact absurd (Except.ok.inj hok).symm hv
      · rintro ⟨h1, h2, -⟩
        exact absurd ⟨h1, h2⟩ hrc

/-- Witness for C6: a parser model that always yields an object carrying
`jobId`, applied to a zero-exit process whose stdout has log noise before the
braced line (written with escaped braces). -/
theorem queue_job_via_cli_spec_witness :
    (∃ v, queue_job_via_cli (fun _ => some (.obj [("jobId", .str "42")]))
      ⟨0, "noise\n\x7b\x7d", ""⟩ = .ok v) ∧
    (∀ v, v ≠ Json.null →
      (queue_job_via_cli (fun _ => some (.obj [("jobId", .str "42")]))
          ⟨0, "noise\n\x7b\x7d", ""⟩ = .ok v ↔
        CompletedProcess.returncode ⟨0, "noise\n\x7b\x7d", ""⟩ = 0 ∧
        CompletedProcess.stdout ⟨0, "noise\n\x7b\x7d", ""⟩ ≠ "" ∧
        ∃ line fields,
          lastJsonLine (CompletedProcess.stdout ⟨0, "noise\n\x7b\x7d", ""⟩) =
            some line ∧
          (fun _ => some (Json.obj [("jobId", .str "42")])) line =
            some (.obj fields) ∧
          pyDictGet fields "jobId" = v)) :=
  queue_job_via_cli_spec (fun _ => some (.obj [("jobId", .str "42")]))
    (fun _s _j h => ⟨[("jobId", .str "42")], (Option.some.inj h).symm⟩)
    ⟨0, "noise\n\x7b\x7d", ""⟩

/-! ## C8: transient materialization failures retry; success counts once -/

/-- A cycle only grows the processed set. -/
theorem runCycle_processed_subset (env : PollEnv) (mat : JobRec → Bool) :
    ∀ (jobs : List JobRec) (processed : Finset String) (uploaded : Nat),
      processed ⊆ (runCycle env mat jobs processed uploaded).2.1 := by
  intro jobs
  induction jobs with
  | nil => intro processed uploaded; simp [runCycle]
  | cons job rest ih =>
    intro processed uploaded
    by_cases h1 : job.jobId ∈ processed
    · simpa [runCycle, h1] using ih processed uploaded
    · by_cases h2 : cycleCompleted env job.jobId = true
      · by_cases h3 : mat job = true
        · simp only [runCycle, if_neg h1, if_pos h2, if_pos h3]
          exact (Finset.subset_insert _ _).trans
            (ih (insert job.jobId processed) (uploaded + 1))
        · simpa [runCycle, h1, h2, h3, retryJob] using ih processed uploaded
      · simpa [runCycle, h1, h2, retryJob] using ih processed uploaded

/-- Every job left in the remaining set was unprocessed at cycle start: a
handle already in the processed set is never processed again. -/
theorem runCycle_remaining_unprocessed (env : PollEnv) (mat : JobRec → Bool) :
    ∀ (jobs : List JobRec) (processed : Finset String) (uploaded : Nat),
      ∀ r ∈ (runCycle env mat jobs processed uploaded).1, r.jobId ∉ processed := by
  intro jobs
  induction jobs with
  | nil => intro processed uploaded; simp [runCycle]
  | cons job rest ih =>
    intro processed uploaded r hr
    by_cases h1 : job.jobId ∈ processed
    · rw [runCycle, if_pos h1] at hr
      exact ih processed uploaded r hr
    · by_cases h2 : cycleCompleted env job.jobId = true
      · by_cases h3 : mat job = true
        · rw [runCycle, if_neg h1, if_pos h2, if_pos h3] at hr
          have := ih (insert job.jobId processed) (uploaded + 1) r hr
          intro hmem
          exact this (Finset.mem_insert_of_mem hmem)
        · rw [runCycle, if_neg h1, if_pos h2, if_neg h3] at hr
          rcases List.mem_cons.mp hr with rfl | hr'
          · exact h1
          · exact ih processed uploaded r hr'
      · rw [runCycle, if_neg h1, if_neg h2] at hr
        rcases List.mem_cons.mp hr with rfl | hr'
        · exact h1
        · exact ih processed uploaded r hr'

/-- The uploaded counter stays equal to the number of processed handles:
each handle is counted exactly once, however many times it was retried. -/
theorem runCycle_uploaded_card (env : PollEnv) (mat : JobRec → Bool) :
    ∀ (jobs : List JobRec) (processed : Finset String) (uploaded : Nat),
      uploaded = processed.card →
      (runCycle env mat jobs processed uploaded).2.2 =
        (runCycle env mat jobs processed uploaded).2.1.card := by
  intro jobs
  induction jobs with
  | nil => intro processed uploaded h; simpa [runCycle] using h
  | cons job rest ih =>
    intro processed uploaded h
    by_cases h1 : job.jobId ∈ processed
    · simpa [runCycle, h1] using ih processed uploaded h
    · by_cases h2 : cycleCompleted env job.jobId = true
      · by_cases h3 : mat job = true
        · simp only [runCycle, if_neg h1, if_pos h2, if_pos h3]
          exact ih (insert job.jobId processed) (uploaded + 1)
            (by rw [Finset.card_insert_of_not_mem h1, h])
        · simpa [runCycle, h1, h2, h3, retryJob] using ih processed uploaded h
      · simpa [runCycle, h1, h2, retryJob] using ih processed uploaded h

/-- A completed job whose materialization succeeds enters the processed set. -/
theorem runCycle_success_processed (env : PollEnv) (mat : JobRec → Bool) :
    ∀ (jobs : List JobRec) (processed : Finset String) (uploaded : Nat)
      (j : JobRec), j ∈ jobs → j.jobId ∉ processed →
      cycleCompleted env j.jobId = true → mat j = true →
      j.jobId ∈ (runCycle env mat jobs processed uploaded).2.1 := by
  intro jobs
  induction jobs with
  | nil => intro processed uploaded j hj; simp at hj
  | cons job rest ih =>
    intro processed uploaded j hj hproc hcomp hmat
    rcases List.mem_cons.mp hj with rfl | hj'
    · rw [runCycle, if_neg hproc, if_pos hcomp, if_pos hmat]
      exact runCycle_processed_subset env mat rest _ _
        (Finset.mem_insert_self _ _)
    · by_cases h1 : job.jobId ∈ processed
      · rw [runCycle, if_pos h1]
        exact ih processed uploaded j hj' hproc hcomp hmat
      · by_cases h2 : cycleCompleted env job.jobId = true
        · by_cases h3 : mat job = true
          · rw [runCycle, if_neg h1, if_pos h2, if_pos h3]
            by_cases hji : j.jobId ∈ insert job.jobId processed
            · exact runCycle_processed_subset env mat rest _ _ hji
            · exact ih _ _ j hj' hji hcomp hmat
          · rw [runCycle, if_neg h1, if_pos h2, if_neg h3]
            exact ih processed uploaded j hj' hproc hcomp hmat
        · rw [runCycle, if_neg h1, if_neg h2]
          exact ih processed uploaded j hj' hproc hcomp hmat

/-- A completed job whose materialization fails this cycle is returned to the
pending set (for distinct outstanding handles). -/
theorem runCycle_failure_retried (env : PollEnv) (mat : JobRec → Bool) :
    ∀ (jobs : List JobRec) (processed : Finset String) (uploaded : Nat)
      (j : JobRec), (jobs.map JobRec.jobId).Nodup → j ∈ jobs →
      j.jobId ∉ processed → cycleCompleted env j.jobId = true → mat j = false →
      j ∈ (runCycle env mat jobs processed uploaded).1 := by
  intro jobs
  induction jobs with
  | nil => intro processed uploaded j _ hj; simp at hj
  | cons job rest ih =>
    intro processed uploaded j hnd hj hproc hcomp hmat
    have hnd1 : job.jobId ∉ rest.map JobRec.jobId :=
      (List.nodup_cons.mp (by simpa using hnd)).1
    have hnd2 : (rest.map JobRec.jobId).Nodup :=
      (List.nodup_cons.mp (by simpa using hnd)).2
    rcases List.mem_cons.mp hj with rfl | hj'
    · rw [runCycle, if_neg hproc, if_pos hcomp, if_neg (by simp [hmat])]
      exact List.mem_cons_self _ _
    · have hne : j.jobId ≠ job.jobId := by
        intro he
        exact hnd1 (he ▸ List.mem_map_of_mem JobRec.jobId hj')
      by_cases h1 : job.jobId ∈ processed
      · rw [runCycle, if_pos h1]
        exact ih processed uploaded j hnd2 hj' hproc hcomp hmat
      · by_cases h2 : cycleCompleted env job.jobId = true
        · by_cases h3 : mat job = true
          · rw [runCycle, if_neg h1, if_pos h2, if_pos h3]
            exact ih _ _ j hnd2 hj'
              (by simp only [Finset.mem_insert]; rintro (he | hp)
                  exacts [hne he, hproc hp]) hcomp hmat
          · rw [runCycle, if_neg h1, if_pos h2, if_neg h3]
            exact List.mem_cons_of_mem _
              (ih processed uploaded j hnd2 hj' hproc hcomp hmat)
        · rw [runCycle, if_neg h1, if_neg h2]
          exact List.mem_cons_of_mem _
            (ih processed uploaded j hnd2 hj' hproc hcomp hmat)

/-- The poll loop never touches the submission-phase failure counter. -/
theorem runPollLoop_failed (envs : Nat → PollEnv × (JobRec → Bool)) (D I : Nat)
    (hI : 0 < I) :
    ∀ n c s, D - s.t ≤ n → (runPollLoop envs D I hI c s).failed = s.failed := by
  intro n
  induction n with
  | zero =>
    intro c s hn
    rw [runPollLoop]
    have hg : ¬(s.jobs ≠ [] ∧ s.t < D) := by
      rintro ⟨-, hlt⟩
      omega
    rw [if_neg hg]
  | succ n ih =>
    intro c s hn
    rw [runPollLoop]
    by_cases hg : s.jobs ≠ [] ∧ s.t < D
    · rw [if_pos hg]
      by_cases hr :
          (runCycle (envs c).1 (envs c).2 s.jobs s.processed s.uploaded).1 = []
      · rw [if_pos hr]
      · rw [if_neg hr]
        exact ih (c + 1) _ (by simp only; omega)
    · rw [if_neg hg]

/-- The `uploaded = card processed` invariant is preserved by the whole
loop. -/
theorem runPollLoop_uploaded_card (envs : Nat → PollEnv × (JobRec → Bool))
    (D I : Nat) (hI : 0 < I) :
    ∀ n c s, D - s.t ≤ n → s.uploaded = s.processed.card →
      (runPollLoop envs D I hI c s).uploaded =
        (runPollLoop envs D I hI c s).processed.card := by
  intro n
  induction n with
  | zero =>
    intro c s hn hcard
    rw [runPollLoop]
    have hg : ¬(s.jobs ≠ [] ∧ s.t < D) := by
      rintro ⟨-, hlt⟩
      omega
    rw [if_neg hg]
    exact hcard
  | succ n ih =>
    intro c s hn hcard
    rw [runPollLoop]
    by_cases hg : s.jobs ≠ [] ∧ s.t < D
    · rw [if_pos hg]
      by_cases hr :
          (runCycle (envs c).1 (envs c).2 s.jobs s.processed s.uploaded).1 = []
      · rw [if_pos hr]
        exact runCycle_uploaded_card (envs c).1 (envs c).2 s.jobs s.processed
          s.uploaded hcard
      · rw [if_neg hr]
        exact ih (c + 1) _ (by simp only; omega)
          (runCycle_uploaded_card (envs c).1 (envs c).2 s.jobs s.processed
            s.uploaded hcard)
    · rw [if_neg hg]
      exact hcard

/-- A handle once in the processed set stays there for the rest of the
loop. -/
theorem runPollLoop_processed_mono (envs : Nat → PollEnv × (JobRec → Bool))
    (D I : Nat) (hI : 0 < I) :
    ∀ n c s x, D - s.t ≤ n → x ∈ s.processed →
      x ∈ (runPollLoop envs D I hI c s).processed := by
  intro n
  induction n with
  | zero =>
    intro c s x hn hx
    rw [runPollLoop]
    have hg : ¬(s.jobs ≠ [] ∧ s.t < D) := by
      rintro ⟨-, hlt⟩
      omega
    rw [if_neg hg]
    exact hx
  | succ n ih =>
    intro c s x hn hx
    rw [runPollLoop]
    by_cases hg : s.jobs ≠ [] ∧ s.t < D
    · rw [if_pos hg]
      by_cases hr :
          (runCycle (envs c).1 (envs c).2 s.jobs s.processed s.uploaded).1 = []
      · rw [if_pos hr]
        exact runCycle_processed_subset (envs c).1 (envs c).2 s.jobs
          s.processed s.uploaded hx
      · rw [if_neg hr]
        exact ih (c + 1) _ x (by simp only; omega)
          (runCycle_processed_subset (envs c).1 (envs c).2 s.jobs s.processed
            s.uploaded hx)
    · rw [if_neg hg]
      exact hx

/-- C8: bookkeeping of transient materialization failures.  Within a cycle:
a completed job whose materialization fails is returned to the pending set
(for distinct outstanding handles) and a completed job whose materialization
succeeds enters the processed set; every job left pending was unprocessed, so
a processed handle is never processed again; the uploaded counter always
equals the number of distinct processed handles, so a job that fails
transiently and later succeeds is counted exactly once.  Across the whole
loop: the processed set only grows, the `uploaded = card processed` invariant
is preserved, and the submission-phase failure counter is never incremented
by a retry. -/
theorem materialization_retry_exactly_once (env : PollEnv)
    (mat : JobRec → Bool) (jobs : List JobRec) (processed : Finset String)
    (uploaded : Nat) (j : JobRec) (envs : Nat → PollEnv × (JobRec → Bool))
    (D I : Nat) (hI : 0 < I) (c : Nat) (s : BatchState) :
    ((jobs.map JobRec.jobId).Nodup → j ∈ jobs → j.jobId ∉ processed →
      cycleCompleted env j.jobId = true → mat j = false →
      j ∈ (runCycle env mat jobs processed uploaded).1) ∧
    (j ∈ jobs → j.jobId ∉ processed → cycleCompleted env j.jobId = true →
      mat j = true →
      j.jobId ∈ (runCycle env mat jobs processed uploaded).2.1) ∧
    (∀ r ∈ (runCycle env mat jobs processed uploaded).1,
      r.jobId ∉ processed) ∧
    (uploaded = processed.card →
      (runCycle env mat jobs processed uploaded).2.2 =
        (runCycle env mat jobs processed uploaded).2.1.card) ∧
    (processed ⊆ (runCycle env mat jobs processed uploaded).2.1) ∧
    ((runPollLoop envs D I hI c s).failed = s.failed) ∧
    (s.uploaded = s.processed.card →
      (runPollLoop envs D I hI c s).uploaded =
        (runPollLoop envs D I hI c s).processed.card) ∧
    (j.jobId ∈ s.processed →
      j.jobId ∈ (runPollLoop envs D I hI c s).processed) :=
  ⟨fun hnd hj hp hc hm =>
      runCycle_failure_retried env mat jobs processed uploaded j hnd hj hp hc hm,
   fun hj hp hc hm =>
      runCycle_success_processed env mat jobs processed uploaded j hj hp hc hm,
   runCycle_remaining_unprocessed env mat jobs processed uploaded,
   runCycle_uploaded_card env mat jobs processed uploaded,
   runCycle_processed_subset env mat jobs processed uploaded,
   runPollLoop_failed envs D I hI (D - s.t) c s le_rfl,
   runPollLoop_uploaded_card envs D I hI (D - s.t) c s le_rfl,
   runPollLoop_processed_mono envs D I hI (D - s.t) c s j.jobId le_rfl⟩

/-- Witness for C8 at a one-job state with an erroring store and failing
materialization. -/
theorem materialization_retry_exactly_once_witness :
    ((([⟨"1", "a.png:00000000", "a", 1, ⟨false, ["a.png"]⟩⟩] :
        List JobRec).map JobRec.jobId).Nodup →
      (⟨"1", "a.png:00000000", "a", 1, ⟨false, ["a.png"]⟩⟩ : JobRec) ∈
        ([⟨"1", "a.png:00000000", "a", 1, ⟨false, ["a.png"]⟩⟩] : List JobRec) →
      JobRec.jobId ⟨"1", "a.png:00000000", "a", 1, ⟨false, ["a.png"]⟩⟩ ∉
        (∅ : Finset String) →
      cycleCompleted ⟨fun _ => RedisReply.err, fun _ => none⟩
        (JobRec.jobId ⟨"1", "a.png:00000000", "a", 1, ⟨false, ["a.png"]⟩⟩) =
        true →
      (fun _ => false) (⟨"1", "a.png:00000000", "a", 1, ⟨false, ["a.png"]⟩⟩ :
        JobRec) = false →
      (⟨"1", "a.png:00000000", "a", 1, ⟨false, ["a.png"]⟩⟩ : JobRec) ∈
        (runCycle ⟨fun _ => RedisReply.err, fun _ => none⟩ (fun _ => false)
          [⟨"1", "a.png:00000000", "a", 1, ⟨false, ["a.png"]⟩⟩] ∅ 0).1) ∧
    ((⟨"1", "a.png:00000000", "a", 1, ⟨false, ["a.png"]⟩⟩ : JobRec) ∈
        ([⟨"1", "a.png:00000000", "a", 1, ⟨false, ["a.png"]⟩⟩] : List JobRec) →
      JobRec.jobId ⟨"1", "a.png:00000000", "a", 1, ⟨false, ["a.png"]⟩⟩ ∉
        (∅ : Finset String) →
      cycleCompleted ⟨fun _ => RedisReply.err, fun _ => none⟩
        (JobRec.jobId ⟨"1", "a.png:00000000", "a", 1, ⟨false, ["a.png"]⟩⟩) =
        true →
      (fun _ => false) (⟨"1", "a.png:00000000", "a", 1, ⟨false, ["a.png"]⟩⟩ :
        JobRec) = true →
      JobRec.jobId ⟨"1", "a.png:00000000", "a", 1, ⟨false, ["a.png"]⟩⟩ ∈
        (runCycle ⟨fun _ => RedisReply.err, fun _ => none⟩ (fun _ => false)
          [⟨"1", "a.png:00000000", "a", 1, ⟨false, ["a.png"]⟩⟩] ∅ 0).2.1) ∧
    (∀ r ∈ (runCycle ⟨fun _ => RedisReply.err, fun _ => none⟩ (fun _ => false)
        [⟨"1", "a.png:00000000", "a", 1, ⟨false, ["a.png"]⟩⟩] ∅ 0).1,
      r.jobId ∉ (∅ : Finset String)) ∧
    (0 = (∅ : Finset String).card →
      (runCycle ⟨fun _ => RedisReply.err, fun _ => none⟩ (fun _ => false)
          [⟨"1", "a.png:00000000", "a", 1, ⟨false, ["a.png"]⟩⟩] ∅ 0).2.2 =
        (runCycle ⟨fun _ => RedisReply.err, fun _ => none⟩ (fun _ => false)
          [⟨"1", "a.png:00000000", "a", 1, ⟨false, ["a.png"]⟩⟩] ∅ 0).2.1.card) ∧
    ((∅ : Finset String) ⊆
      (runCycle ⟨fun _ => RedisReply.err, fun _ => none⟩ (fun _ => false)
        [⟨"1", "a.png:00000000", "a", 1, ⟨false, ["a.png"]⟩⟩] ∅ 0).2.1) ∧
    ((runPollLoop (fun _ => (⟨fun _ => RedisReply.err, fun _ => none⟩,
        fun _ => false)) 20 10 (by decide) 0
        ⟨[⟨"1", "a.png:00000000", "a", 1, ⟨false, ["a.png"]⟩⟩], ∅, 0, 0, 0⟩).failed =
      BatchState.failed
        ⟨[⟨"1", "a.png:00000000", "a", 1, ⟨false, ["a.png"]⟩⟩], ∅, 0, 0, 0⟩) ∧
    (BatchState.uploaded
        ⟨[⟨"1", "a.png:00000000", "a", 1, ⟨false, ["a.png"]⟩⟩], ∅, 0, 0, 0⟩ =
      (BatchState.processed
        ⟨[⟨"1", "a.png:00000000", "a", 1, ⟨false, ["a.png"]⟩⟩], ∅, 0, 0, 0⟩).card →
      (runPollLoop (fun _ => (⟨fun _ => RedisReply.err, fun _ => none⟩,
        fun _ => false)) 20 10 (by decide) 0
        ⟨[⟨"1", "a.png:00000000", "a", 1, ⟨false, ["a.png"]⟩⟩], ∅, 0, 0, 0⟩).uploaded =
      (runPollLoop (fun _ => (⟨fun _ => RedisReply.err, fun _ => none⟩,
        fun _ => false)) 20 10 (by decide) 0
        ⟨[⟨"1", "a.png:00000000", "a", 1, ⟨false, ["a.png"]⟩⟩], ∅, 0, 0, 0⟩).processed.card) ∧
    (JobRec.jobId ⟨"1", "a.png:00000000", "a", 1, ⟨false, ["a.png"]⟩⟩ ∈
      BatchState.processed
        ⟨[⟨"1", "a.png:00000000", "a", 1, ⟨false, ["a.png"]⟩⟩], ∅, 0, 0, 0⟩ →
      JobRec.jobId ⟨"1", "a.png:00000000", "a", 1, ⟨false, ["a.png"]⟩⟩ ∈
      (runPollLoop (fun _ => (⟨fun _ => RedisReply.err, fun _ => none⟩,
        fun _ => false)) 20 10 (by decide) 0
        ⟨[⟨"1", "a.png:00000000", "a", 1, ⟨false, ["a.png"]⟩⟩], ∅, 0, 0, 0⟩).processed) :=
  materialization_retry_exactly_once ⟨fun _ => RedisReply.err, fun _ => none⟩
    (fun _ => false) [⟨"1", "a.png:00000000", "a", 1, ⟨false, ["a.png"]⟩⟩] ∅ 0
    ⟨"1", "a.png:00000000", "a", 1, ⟨false, ["a.png"]⟩⟩
    (fun _ => (⟨fun _ => RedisReply.err, fun _ => none⟩, fun _ => false)) 20 10
    (by decide) 0 ⟨[⟨"1", "a.png:00000000", "a", 1, ⟨false, ["a.png"]⟩⟩], ∅, 0, 0, 0⟩

/-! ## C9: the ledger stamp / ledger reader round trip

Supporting lemmas about occurrences of a separator and the behavior of the
split worker around them. -/

/-- An occurrence found at a drop position witnesses containment. -/
theorem containsL_of_prefix_drop (sep t : List Char) (i : Nat)
    (h : sep.isPrefixOf (List.drop i t) = true) : containsL sep t = true := by
  obtain ⟨u, hu⟩ := List.isPrefixOf_iff_prefix.mp h
  exact (containsL_iff sep t).mpr ⟨List.take i t, u,
    by rw [List.append_assoc, hu, List.take_append_drop]⟩

/-- Containment is inherited by any extension of a suffix. -/
theorem containsL_true_of_suffix (sep x y : List Char) (hsuf : x <:+ y)
    (h : containsL sep x = true) : containsL sep y = true := by
  obtain ⟨pre, rfl⟩ := hsuf
  rcases (containsL_iff sep x).mp h with ⟨a, b, rfl⟩
  exact (containsL_iff sep _).mpr ⟨pre ++ a, b, by simp⟩

/-- A whitespace-free separator absent from `x` is also absent from
`x ++ [' ']`. -/
theorem containsL_append_space_false (sep x : List Char) (hsep : sep ≠ [])
    (hws : ∀ c ∈ sep, pyIsSpace c = false)
    (hx : containsL sep x = false) : containsL sep (x ++ [' ']) = false := by
  by_contra hc
  have hc' : containsL sep (x ++ [' ']) = true := by
    cases h : containsL sep (x ++ [' '])
    · exact absurd h hc
    · rfl
  rcases (containsL_iff sep _).mp hc' with ⟨a, b, hab⟩
  rcases List.eq_nil_or_concat b with rfl | ⟨b', lb, rfl⟩
  · rcases List.eq_nil_or_concat sep with rfl | ⟨s', ls, rfl⟩
    · exact hsep rfl
    · rw [List.concat_eq_append, List.append_nil, ← List.append_assoc] at hab
      rcases List.append_inj' hab rfl with ⟨hx', hl⟩
      have hls : ' ' = ls := ((List.cons.injEq ' ' [] ls []).mp hl).1
      have hmem : ls ∈ s'.concat ls := by simp
      have hws' := hws ls hmem
      rw [← hls] at hws'
      simp [pyIsSpace] at hws'
  · rw [List.concat_eq_append, ← List.append_assoc] at hab
    rcases List.append_inj' hab rfl with ⟨hx', hl⟩
    have hcx : containsL sep x = true := (containsL_iff sep x).mpr ⟨a, b', hx'⟩
    rw [hcx] at hx
    cases hx

/-- No occurrence of a whitespace-free separator can start inside
`A₁ ++ [' ']` when the separator does not occur in `A₁ ++ [' ']` itself:
an occurrence lying fully inside would contradict that, and an occurrence
straddling the boundary would have to contain the space. -/
theorem no_occ_before (sep A₁ rest : List Char)
    (hws : ∀ c ∈ sep, pyIsSpace c = false)
    (hA : containsL sep (A₁ ++ [' ']) = false) :
    ∀ i, i < (A₁ ++ [' ']).length →
      ¬ sep.isPrefixOf (List.drop i ((A₁ ++ [' ']) ++ rest)) = true := by
  intro i hi hpre
  have hile : i ≤ (A₁ ++ [' ']).length := Nat.le_of_lt hi
  rw [List.drop_append_of_le_length hile] at hpre
  obtain ⟨u, hu⟩ := List.isPrefixOf_iff_prefix.mp hpre
  by_cases hlen : sep.length ≤ (List.drop i (A₁ ++ [' '])).length
  · have hsep_pre : sep <+: List.drop i (A₁ ++ [' ']) :=
      List.prefix_of_prefix_length_le ⟨u, hu⟩
        (List.prefix_append _ _) hlen
    have : containsL sep (A₁ ++ [' ']) = true :=
      containsL_of_prefix_drop sep _ i (List.isPrefixOf_iff_prefix.mpr hsep_pre)
    rw [this] at hA
    cases hA
  · have hdrop_pre : List.drop i (A₁ ++ [' ']) <+: sep :=
      List.prefix_of_prefix_length_le (List.prefix_append _ _) ⟨u, hu⟩
        (Nat.le_of_lt (Nat.lt_of_not_le hlen))
    have hspace_mem : ' ' ∈ List.drop i (A₁ ++ [' ']) := by
      have hi' : i ≤ A₁.length := by
        simp only [List.length_append, List.length_cons, List.length_nil] at hi
        omega
      rw [List.drop_append_of_le_length hi']
      simp
    have : ' ' ∈ sep := hdrop_pre.sublist.mem hspace_mem
    have := hws ' ' this
    simp [pyIsSpace] at this

/-- The split worker consumes an occurrence-free prefix into its
accumulator. -/
theorem splitOnAux_append_no_occ (sep : List Char) :
    ∀ (a : List Char) (b acc : List Char) (fuel : Nat), a.length ≤ fuel →
      (∀ i, i < a.length → ¬ sep.isPrefixOf (List.drop i (a ++ b)) = true) →
      splitOnAux sep fuel (a ++ b) acc =
        splitOnAux sep (fuel - a.length) b (a.reverse ++ acc) := by
  intro a
  induction a with
  | nil => intro b acc fuel hfuel hocc; simp
  | cons c a' ih =>
    intro b acc fuel hfuel hocc
    cases fuel with
    | zero => simp at hfuel
    | succ f =>
      have hocc0 : ¬ sep.isPrefixOf ((c :: a') ++ b) = true := by
        have := hocc 0 (by simp)
        simpa using this
      have hfuel' : a'.length ≤ f := by
        simp only [List.length_cons] at hfuel
        omega
      show splitOnAux sep (f + 1) (c :: (a' ++ b)) acc = _
      rw [splitOnAux, if_neg (by simpa using hocc0)]
      rw [ih b (c :: acc) f hfuel'
        (fun i hi => by
          have := hocc (i + 1) (by simp only [List.length_cons]; omega)
          simpa [List.drop_succ_cons] using this)]
      simp only [List.length_cons, Nat.succ_sub_succ, List.reverse_cons,
        List.append_assoc, List.singleton_append]

/-- The split worker cuts at a leading occurrence of the separator. -/
theorem splitOnAux_cut (sep : List Char) (hsep : sep ≠ []) (b acc : List Char)
    (fuel : Nat) (hfuel : 1 ≤ fuel) :
    splitOnAux sep fuel (sep ++ b) acc =
      acc.reverse :: splitOnAux sep (fuel - 1) b [] := by
  obtain ⟨c, sep', rfl⟩ : ∃ c sep', sep = c :: sep' := by
    cases sep with
    | nil => exact absurd rfl hsep
    | cons c sep' => exact ⟨c, sep', rfl⟩
  cases fuel with
  | zero => omega
  | succ f =>
    show splitOnAux (c :: sep') (f + 1) (c :: (sep' ++ b)) acc = _
    rw [splitOnAux, if_pos (List.isPrefixOf_iff_prefix.mpr
      (show (c :: sep') <+: c :: (sep' ++ b) from ⟨b, rfl⟩))]
    have hdrop : List.drop ((c :: sep').length - 1) (sep' ++ b) = b := by
      simp only [List.length_cons, Nat.succ_sub_one]
      exact List.drop_left sep' b
    rw [hdrop]
    simp only [Nat.add_sub_cancel]

/-- Whatever follows, the head of the split result extends the accumulator. -/
theorem splitOnAux_head_shape (sep : List Char) :
    ∀ (fuel : Nat) (t acc : List Char), ∃ z tail,
      splitOnAux sep fuel t acc = (acc.reverse ++ z) :: tail := by
  intro fuel
  induction fuel with
  | zero =>
    intro t acc
    cases t with
    | nil => exact ⟨[], [], by simp [splitOnAux]⟩
    | cons c r => exact ⟨c :: r, [], by simp [splitOnAux]⟩
  | succ f ih =>
    intro t acc
    cases t with
    | nil => exact ⟨[], [], by simp [splitOnAux]⟩
    | cons c r =>
      by_cases hpre : sep.isPrefixOf (c :: r) = true
      · exact ⟨[], splitOnAux sep f (List.drop (sep.length - 1) r) [],
          by rw [splitOnAux, if_pos hpre]; simp⟩
      · obtain ⟨z, tail, hz⟩ := ih r (c :: acc)
        exact ⟨c :: z, tail, by
          rw [splitOnAux, if_neg hpre, hz]
          simp⟩

/-- The whitespace split worker starts with the accumulated non-whitespace
token. -/
theorem pySplitAux_token (z : List Char) :
    ∀ (idt acc : List Char), idt ≠ [] ∨ acc ≠ [] →
      (∀ c ∈ idt, pyIsSpace c = false) →
      pySplitAux (idt ++ ' ' :: z) acc =
        (acc.reverse ++ idt) :: pySplitAux z [] := by
  intro idt
  induction idt with
  | nil =>
    intro acc hne hws
    have hacc : acc ≠ [] := by
      rcases hne with h | h
      · exact absurd rfl h
      · exact h
    show pySplitAux (' ' :: z) acc = _
    rw [pySplitAux, if_pos (by rfl),
      if_neg (by simpa [List.isEmpty_eq_true] using hacc)]
    simp
  | cons c idt' ih =>
    intro acc hne hws
    have hc : pyIsSpace c = false := hws c (List.mem_cons_self _ _)
    show pySplitAux (c :: (idt' ++ ' ' :: z)) acc = _
    rw [pySplitAux, if_neg (by simp [hc])]
    rw [ih (c :: acc) (Or.inr (by simp))
      (fun d hd => hws d (List.mem_cons_of_mem _ hd))]
    simp

/-- `rstrip` is the identity on a string ending in a non-empty run of
non-whitespace characters. -/
theorem rstripL_append_nonws (x idt : List Char) (hne : idt ≠ [])
    (hws : ∀ c ∈ idt, pyIsSpace c = false) :
    rstripL (x ++ idt) = x ++ idt := by
  obtain ⟨d, ds, hrev⟩ : ∃ d ds, idt.reverse = d :: ds := by
    cases h : idt.reverse with
    | nil => exact absurd (by simpa using congrArg List.reverse h) hne
    | cons d ds => exact ⟨d, ds, rfl⟩
  have hd : d ∈ idt := by
    have : d ∈ idt.reverse := by rw [hrev]; exact List.mem_cons_self _ _
    simpa using this
  rw [rstripL, List.reverse_append, hrev, List.cons_append]
  rw [List.dropWhile_cons, if_neg (by simp [hws d hd])]
  rw [← List.cons_append, ← hrev, ← List.reverse_append, List.reverse_reverse]

/-- The marker is non-empty. -/
theorem markerL_ne_nil : markerL ≠ [] := by decide

/-- The marker contains no whitespace. -/
theorem markerL_no_ws : ∀ c ∈ markerL, pyIsSpace c = false := by decide

/-- `lstrip` is the identity on a string starting with the marker. -/
theorem lstripL_marker_append (idt : List Char) :
    lstripL (markerL ++ idt) = markerL ++ idt := by
  show List.dropWhile pyIsSpace (markerL ++ idt) = markerL ++ idt
  have h : markerL ++ idt = 'B' :: (("ATCH_IDENTIFIER:" : String).data ++ idt) :=
    rfl
  rw [h, List.dropWhile_cons, if_neg (by decide)]

/-- The character data of the stamped description: the left-stripped original
description (followed by one space when non-empty) and then the tag
`BATCH_IDENTIFIER:<identifier>`, for identifiers that are non-empty,
whitespace-free and not already tagged in the description. -/
theorem stampDescription_data (desc : String) (idt : List Char)
    (hdesc : containsL markerL desc.data = false)
    (hne : idt ≠ []) (hws : ∀ c ∈ idt, pyIsSpace c = false) :
    (stampDescription desc (String.mk idt)).data =
      (if (lstripL desc.data).isEmpty = true then ([] : List Char)
       else lstripL desc.data ++ [' ']) ++ (markerL ++ idt) := by
  have htag : (batchMarker ++ String.mk idt).data = markerL ++ idt := by
    rw [String.data_append]
    rfl
  have hnotag : containsL (markerL ++ idt) desc.data = false := by
    cases h : containsL (markerL ++ idt) desc.data
    · rfl
    · have hmk := containsL_of_containsL_append markerL idt desc.data h
      rw [hmk] at hdesc
      cases hdesc
  simp only [stampDescription]
  rw [if_neg (show ¬ containsL (batchMarker ++ String.mk idt).data desc.data =
      true by rw [htag, hnotag]; simp)]
  have hX : (desc ++ " " ++ (batchMarker ++ String.mk idt)).data =
      desc.data ++ (' ' :: (markerL ++ idt)) := by
    rw [String.data_append, String.data_append, htag, space_data]
    simp
  show pyStripL (desc ++ " " ++ (batchMarker ++ String.mk idt)).data = _
  rw [hX, pyStripL, lstripL, List.dropWhile_append]
  by_cases hA : (List.dropWhile pyIsSpace desc.data).isEmpty = true
  · rw [if_pos hA]
    have h1 : List.dropWhile pyIsSpace (' ' :: (markerL ++ idt)) =
        markerL ++ idt := by
      rw [List.dropWhile_cons, if_pos (by decide)]
      exact lstripL_marker_append idt
    rw [h1]
    rw [show (if (lstripL desc.data).isEmpty = true then ([] : List Char)
         else lstripL desc.data ++ [' ']) = [] from if_pos hA]
    rw [List.nil_append]
    exact rstripL_append_nonws markerL idt hne hws
  · rw [if_neg hA]
    have hshape : List.dropWhile pyIsSpace desc.data ++ (' ' :: (markerL ++ idt)) =
        (List.dropWhile pyIsSpace desc.data ++ (' ' :: markerL)) ++ idt := by
      simp
    rw [hshape, rstripL_append_nonws _ idt hne hws]
    rw [show (if (lstripL desc.data).isEmpty = true then ([] : List Char)
         else lstripL desc.data ++ [' ']) = lstripL desc.data ++ [' ']
       from if_neg hA]
    simp [lstripL]

/-- After a cut, the next piece starts with the identifier token. -/
theorem splitOnAux_token_head (idt rest : List Char) (f : Nat)
    (hidm : containsL markerL idt = false)
    (hf : idt.length + 1 ≤ f) :
    ∃ z tail, splitOnAux markerL f ((idt ++ [' ']) ++ rest) [] =
      ((idt ++ [' ']) ++ z) :: tail := by
  rw [splitOnAux_append_no_occ markerL (idt ++ [' ']) rest [] f
    (by simp only [List.length_append, List.length_cons, List.length_nil]; omega)
    (no_occ_before markerL idt rest markerL_no_ws
      (containsL_append_space_false markerL idt markerL_ne_nil markerL_no_ws
        hidm))]
  obtain ⟨z, tail, hz⟩ := splitOnAux_head_shape markerL
    (f - (idt ++ [' ']).length) rest ((idt ++ [' ']).reverse ++ [])
  refine ⟨z, tail, ?_⟩
  rw [hz]
  simp

/-- Computing the reader's per-item extraction from the split shape. -/
theorem extractIdentifier_parts (text p0 z : List Char)
    (tail : List (List Char)) (idt : List Char)
    (hcont : containsL markerL text = true)
    (hsplit : splitOnL markerL text = p0 :: ((idt ++ [' ']) ++ z) :: tail)
    (hne : idt ≠ []) (hws : ∀ c ∈ idt, pyIsSpace c = false) :
    extractIdentifier text = idt := by
  have hx : (idt ++ [' ']) ++ z = idt ++ ' ' :: z := by simp
  simp only [extractIdentifier, hcont, if_true, hsplit, hx]
  rw [if_pos (by simp)]
  show (match pySplitWs ((p0 :: (idt ++ ' ' :: z) :: tail).getD 1 []) with
    | [] => ([] : List Char)
    | t :: _ => t) = idt
  rw [show (p0 :: (idt ++ ' ' :: z) :: tail).getD 1 [] = idt ++ ' ' :: z from rfl]
  rw [pySplitWs, pySplitAux_token z idt [] (Or.inl hne) hws]
  simp

/-- The reader's per-item extraction recovers the identifier stamped into a
marker-free description, for any dream name. -/
theorem extractIdentifier_stamped (desc name : String) (idt : List Char)
    (hne : idt ≠ []) (hws : ∀ c ∈ idt, pyIsSpace c = false)
    (hidm : containsL markerL idt = false)
    (hdesc : containsL markerL desc.data = false) :
    extractIdentifier ((stampDescription desc (String.mk idt)).data ++
      ' ' :: name.data) = idt := by
  rw [stampDescription_data desc idt hdesc hne hws]
  have hmlen : markerL.length = 17 := by decide
  by_cases hA : (lstripL desc.data).isEmpty = true
  · rw [if_pos hA, List.nil_append]
    have htext : (markerL ++ idt) ++ ' ' :: name.data =
        markerL ++ ((idt ++ [' ']) ++ name.data) := by simp
    rw [htext]
    have hcut : splitOnL markerL (markerL ++ ((idt ++ [' ']) ++ name.data)) =
        [] :: splitOnAux markerL
          ((markerL ++ ((idt ++ [' ']) ++ name.data)).length - 1)
          ((idt ++ [' ']) ++ name.data) [] := by
      rw [splitOnL, splitOnAux_cut markerL markerL_ne_nil _ _ _
        (by simp only [List.length_append, hmlen]; omega)]
      rfl
    obtain ⟨z, tail, hz⟩ := splitOnAux_token_head idt name.data
      ((markerL ++ ((idt ++ [' ']) ++ name.data)).length - 1) hidm
      (by simp only [List.length_append, List.length_cons, List.length_nil,
        hmlen]; omega)
    exact extractIdentifier_parts _ [] z tail idt
      (containsL_of_decomp markerL [] _)
      (by rw [hcut, hz]) hne hws
  · rw [if_neg hA]
    have htext : ((lstripL desc.data ++ [' ']) ++ (markerL ++ idt)) ++
        ' ' :: name.data =
        (lstripL desc.data ++ [' ']) ++
          (markerL ++ ((idt ++ [' ']) ++ name.data)) := by simp
    rw [htext]
    have hAfree : containsL markerL (lstripL desc.data ++ [' ']) = false := by
      refine containsL_append_space_false markerL (lstripL desc.data)
        markerL_ne_nil markerL_no_ws ?_
      cases h : containsL markerL (lstripL desc.data)
      · rfl
      · have := containsL_true_of_suffix markerL (lstripL desc.data) desc.data
          (List.dropWhile_suffix pyIsSpace) h
        rw [this] at hdesc
        cases hdesc
    have hconsume : splitOnL markerL ((lstripL desc.data ++ [' ']) ++
        (markerL ++ ((idt ++ [' ']) ++ name.data))) =
        splitOnAux markerL
          (((lstripL desc.data ++ [' ']) ++
            (markerL ++ ((idt ++ [' ']) ++ name.data))).length -
            (lstripL desc.data ++ [' ']).length)
          (markerL ++ ((idt ++ [' ']) ++ name.data))
          ((lstripL desc.data ++ [' ']).reverse ++ []) := by
      rw [splitOnL, splitOnAux_append_no_occ markerL (lstripL desc.data ++ [' '])
        (markerL ++ ((idt ++ [' ']) ++ name.data)) []
        ((lstripL desc.data ++ [' ']) ++
          (markerL ++ ((idt ++ [' ']) ++ name.data))).length
        (by simp only [List.length_append]; omega)
        (no_occ_before markerL (lstripL desc.data) _ markerL_no_ws hAfree)]
    have hcut : splitOnAux markerL
        (((lstripL desc.data ++ [' ']) ++
          (markerL ++ ((idt ++ [' ']) ++ name.data))).length -
          (lstripL desc.data ++ [' ']).length)
        (markerL ++ ((idt ++ [' ']) ++ name.data))
        ((lstripL desc.data ++ [' ']).reverse ++ []) =
        (lstripL desc.data ++ [' ']) :: splitOnAux markerL
          ((((lstripL desc.data ++ [' ']) ++
            (markerL ++ ((idt ++ [' ']) ++ name.data))).length -
            (lstripL desc.data ++ [' ']).length) - 1)
          ((idt ++ [' ']) ++ name.data) [] := by
      rw [splitOnAux_cut markerL markerL_ne_nil _ _ _
        (by simp only [List.length_append, List.length_cons, List.length_nil,
          hmlen]; omega)]
      simp
    obtain ⟨z, tail, hz⟩ := splitOnAux_token_head idt name.data
      ((((lstripL desc.data ++ [' ']) ++
        (markerL ++ ((idt ++ [' ']) ++ name.data))).length -
        (lstripL desc.data ++ [' ']).length) - 1) hidm
      (by simp only [List.length_append, List.length_cons, List.length_nil,
        hmlen]; omega)
    exact extractIdentifier_parts _ (lstripL desc.data ++ [' ']) z tail idt
      ((containsL_iff markerL _).mpr ⟨lstripL desc.data ++ [' '],
        (idt ++ [' ']) ++ name.data, by simp⟩)
      (by rw [hconsume, hcut, hz]) hne hws

/-- C9 (amended): for every identifier that is non-empty, whitespace-free and
does not contain the marker `BATCH_IDENTIFIER:` (identifiers produced from
marker-free, whitespace-free image file names are such), and every dream
description in which the marker does not occur, stamping the identifier into
the description and then reading the item back through the ledger reader
yields exactly that identifier, whatever the dream's name; and stamping a
description that already contains the tagged identifier leaves it
unchanged. -/
theorem ledger_stamp_roundtrip (desc name : String) (idt : List Char)
    (hne : idt ≠ []) (hws : ∀ c ∈ idt, pyIsSpace c = false)
    (hidm : containsL markerL idt = false)
    (hdesc : containsL markerL desc.data = false) :
    get_existing_dream_identifiers
        [⟨"dream", some ⟨stampDescription desc (String.mk idt), name⟩⟩] =
      {String.mk idt} ∧
    ∀ d : String, containsL (batchMarker ++ String.mk idt).data d.data = true →
      stampDescription d (String.mk idt) = d := by
  constructor
  · have hid := extractIdentifier_stamped desc name idt hne hws hidm hdesc
    have htext : ((stampDescription desc (String.mk idt)) ++ " " ++ name).data =
        (stampDescription desc (String.mk idt)).data ++ ' ' :: name.data := by
      rw [String.data_append, String.data_append, space_data]
      simp
    simp only [get_existing_dream_identifiers, List.foldl_cons, List.foldl_nil]
    simp only [htext, hid]
    rw [if_pos trivial, if_neg (show ¬(idt.isEmpty = true) by simpa using hne)]
    simp
  · intro d hd
    simp only [stampDescription]
    rw [if_pos hd]

set_option maxRecDepth 100000 in
/-- C9 counterexample: for the whitespace-free identifier produced from the
image `a.png` with the empty combo prompt, stamping it into a description
that already carries a foreign `BATCH_IDENTIFIER:` tag and reading the item
back does not recover the identifier (the reader only extracts the text after
the first marker occurrence), so the round trip fails on such
descriptions. -/
theorem ledger_stamp_roundtrip_counterexample :
    get_existing_dream_identifiers
        [⟨"dream", some ⟨stampDescription "BATCH_IDENTIFIER:zzz"
            (create_job_identifier ⟨false, ["a.png"]⟩ ""), ""⟩⟩] ≠
      {create_job_identifier ⟨false, ["a.png"]⟩ ""} := by
  have hextract : extractIdentifier ((stampDescription "BATCH_IDENTIFIER:zzz"
      (create_job_identifier ⟨false, ["a.png"]⟩ "") ++ " " ++ "").data) =
      ("zzz" : String).data := by decide
  have h1 : get_existing_dream_identifiers
      [⟨"dream", some ⟨stampDescription "BATCH_IDENTIFIER:zzz"
          (create_job_identifier ⟨false, ["a.png"]⟩ ""), ""⟩⟩] =
      {"zzz"} := by
    simp only [get_existing_dream_identifiers, List.foldl_cons, List.foldl_nil]
    simp only [hextract]
    rw [if_pos trivial, if_neg (by decide)]
    simp
  have h2 : ("zzz" : String) ≠ create_job_identifier ⟨false, ["a.png"]⟩ "" := by
    decide
  intro heq
  rw [h1] at heq
  exact h2 (Finset.singleton_inj.mp heq)

/-- Witness for C9 (amended) at a concrete description, name and
identifier. -/
theorem ledger_stamp_roundtrip_witness :
    get_existing_dream_identifiers
        [⟨"dream", some ⟨stampDescription "a nice dream"
            (String.mk ['i', 'd']), "dream one"⟩⟩] =
      {String.mk ['i', 'd']} ∧
    (∀ d : String,
      containsL (batchMarker ++ String.mk ['i', 'd']).data d.data = true →
      stampDescription d (String.mk ['i', 'd']) = d) :=
  ledger_stamp_roundtrip "a nice dream" "dream one" ['i', 'd'] (by decide)
    (by decide) (by decide) (by decide)
